import Mathlib

/-!
Verification of the lottie-rs core against its specification.

The Rust sources embedded here are:
  crates/core/src/layer/shape.rs  (styled-shape cascade iterator, path building)
  crates/core/src/timeline.rs     (timeline builder)
  crates/ast/src/helpers.rs       (codec primitives)

Machine floats (f32/f64) are embedded as exact rationals; Rust integer
casts are embedded with explicit modular / clamping arithmetic on Nat/Int.
Data-model types that live in the model crates (not part of the verified
sources) are modelled from the specification, each marked as such.
-/

set_option maxHeartbeats 1000000

namespace LottieSpec

/-- Modelled from the spec: 2D vector (the model crate's Vector2D), with exact
rational coordinates standing in for f32. -/
structure Vec2 where
  x : ℚ
  y : ℚ
deriving DecidableEq, Repr

instance : Add Vec2 := ⟨fun a b => ⟨a.x + b.x, a.y + b.y⟩⟩

instance : Sub Vec2 := ⟨fun a b => ⟨a.x - b.x, a.y - b.y⟩⟩

instance : Zero Vec2 := ⟨⟨0, 0⟩⟩

theorem Vec2.add_def (a b : Vec2) : a + b = ⟨a.x + b.x, a.y + b.y⟩ := rfl

theorem Vec2.zero_x : (0 : Vec2).x = 0 := rfl

theorem Vec2.zero_y : (0 : Vec2).y = 0 := rfl

theorem Vec2.eq_iff (a b : Vec2) : a = b ↔ a.x = b.x ∧ a.y = b.y := by
  cases a
  cases b
  simp

/-- Modelled from the spec: RGBA color with byte components in [0, 255]. -/
structure Rgba where
  r : ℕ
  g : ℕ
  b : ℕ
  a : ℕ
deriving DecidableEq, Repr

/-- Modelled from the spec: cubic easing control points of a keyframe. -/
structure Easing where
  x : List ℚ
  y : List ℚ
deriving DecidableEq, Repr

/-- Modelled from the spec: a keyframe carries a value, an optional start
frame and optional in/out easing control points. -/
structure KeyFrame (T : Type) where
  value : T
  start_frame : Option ℚ
  easing_in : Option Easing
  easing_out : Option Easing
deriving DecidableEq, Repr

/-- Modelled from the source's `KeyFrame::from_value` usage: a static
keyframe with no start frame and no easing. -/
def KeyFrame.from_value {T : Type} (v : T) : KeyFrame T :=
  { value := v, start_frame := none, easing_in := none, easing_out := none }

/-- Modelled from the spec: a property that is either a single static value
or a list of keyframes. -/
structure Animated (T : Type) where
  animated : Bool
  keyframes : List (KeyFrame T)
deriving DecidableEq, Repr

/-- Modelled from the spec: a static (non-animated) property. -/
def Animated.static {T : Type} (v : T) : Animated T :=
  { animated := false, keyframes := [KeyFrame.from_value v] }

/-- Modelled from the spec: layer/shape transform; optional fields default to
the identity of their type (zero offsets, opacity 100, scale (100,100)). -/
structure Transform where
  anchor : Option (Animated Vec2) := none
  position : Option (Animated Vec2) := none
  scale : Animated Vec2 := Animated.static ⟨100, 100⟩
  rotation : Animated ℚ := Animated.static 0
  opacity : Animated ℚ := Animated.static 100
deriving DecidableEq, Repr

instance : Inhabited Transform := ⟨{}⟩

/-- Modelled from the spec: stroke line cap. -/
inductive LineCap where
  | butt
  | round
  | square
deriving DecidableEq, Repr

/-- Modelled from the spec: stroke line join. -/
inductive LineJoin where
  | miter
  | round
  | bevel
deriving DecidableEq, Repr

/-- Modelled from the spec: solid fill style (color + opacity). -/
structure Fill where
  opacity : Animated ℚ
  color : Animated Rgba
deriving DecidableEq, Repr

/-- Modelled from the source's `Fill::transparent()`: a fully transparent
solid fill, used as the default when a cascade provides no fill. -/
def Fill.transparent : Fill :=
  { opacity := Animated.static 0, color := Animated.static ⟨0, 0, 0, 0⟩ }

/-- Modelled from the spec: solid stroke style. -/
structure Stroke where
  line_cap : LineCap
  line_join : LineJoin
  opacity : Animated ℚ
  width : Animated ℚ
  color : Animated Rgba
deriving DecidableEq, Repr

/-- Modelled from the spec: gradient fill style (payload details are not
needed by the verified code paths). -/
structure GradientFill where
  opacity : Animated ℚ
  start_point : Animated Vec2
  end_point : Animated Vec2
deriving DecidableEq, Repr

/-- Modelled from the spec: gradient stroke style. -/
structure GradientStroke where
  line_cap : LineCap
  line_join : LineJoin
  opacity : Animated ℚ
  width : Animated ℚ
deriving DecidableEq, Repr

/-- Modelled from the spec: winding direction of a shape primitive. -/
inductive ShapeDirection where
  | clockwise
  | counterClockwise
deriving DecidableEq, Repr

/-- Modelled from the spec: polystar sub-type. -/
inductive PolyStarType where
  | star
  | polygon
deriving DecidableEq, Repr

/-- Modelled from the spec: rectangle primitive. -/
structure Rectangle where
  direction : ShapeDirection
  position : Animated Vec2
  size : Animated Vec2
  radius : Animated ℚ
deriving DecidableEq, Repr

/-- Modelled from the spec: ellipse primitive. -/
structure Ellipse where
  direction : ShapeDirection
  position : Animated Vec2
  size : Animated Vec2
deriving DecidableEq, Repr

/-- Modelled from the spec: polystar primitive. -/
structure PolyStar where
  position : Animated Vec2
  outer_radius : Animated ℚ
  inner_radius : Option (Animated ℚ)
  outer_roundness : Animated ℚ
  inner_roundness : Option (Animated ℚ)
  rotation : Animated ℚ
  points : Animated ℚ
  direction : ShapeDirection
  star_type : PolyStarType
deriving DecidableEq, Repr

/-- Modelled from the spec: cubic Bézier collection entry; parallel arrays of
vertices and relative in/out tangents, plus a closed flag.  The field name
`verticies` is the source's spelling. -/
structure Bezier where
  closed : Bool
  verticies : List Vec2
  in_tangent : List Vec2
  out_tangent : List Vec2
deriving DecidableEq, Repr

mutual

/-- Modelled from the spec: the Shape variant of a shape-layer entry. -/
inductive Shape where
  | rectangle (r : Rectangle)
  | ellipse (e : Ellipse)
  | polyStar (p : PolyStar)
  | path (d : Animated (List Bezier))
  | fill (f : Fill)
  | stroke (s : Stroke)
  | gradientFill (g : GradientFill)
  | gradientStroke (g : GradientStroke)
  | transform (t : Transform)
  | group (shapes : List ShapeLayer)

/-- Modelled from the spec: a shape-layer entry: name, hidden flag, variant. -/
inductive ShapeLayer where
  | mk (name : Option String) (hidden : Bool) (shape : Shape)

end

/-- Accessor for the hidden flag of a `ShapeLayer`. -/
def ShapeLayer.hidden : ShapeLayer → Bool
  | .mk _ h _ => h

/-- Accessor for the shape variant of a `ShapeLayer`. -/
def ShapeLayer.shape : ShapeLayer → Shape
  | .mk _ _ s => s

/-- Accessor for the name of a `ShapeLayer`. -/
def ShapeLayer.name : ShapeLayer → Option String
  | .mk n _ _ => n

/-- Modelled from the spec: an ordered list of shape entries (the cascade). -/
structure ShapeGroup where
  shapes : List ShapeLayer

/-! Embedding of crates/core/src/layer/shape.rs: the `ShapeExt` trait. -/

/-- `ShapeExt::is_style` from shape.rs: fill, stroke, gradient fill and
gradient stroke entries are styles. -/
def Shape.is_style : Shape → Bool
  | .fill _ | .stroke _ | .gradientFill _ | .gradientStroke _ => true
  | _ => false

/-- `ShapeExt::is_shape` from shape.rs: rectangle, ellipse, polystar and path
entries are drawable shapes. -/
def Shape.is_shape : Shape → Bool
  | .rectangle _ | .ellipse _ | .polyStar _ | .path _ => true
  | _ => false

/-- `ShapeExt::is_group` from shape.rs. -/
def Shape.is_group : Shape → Bool
  | .group _ => true
  | _ => false

/-- `AnyFill` from shape.rs: a solid or gradient fill. -/
inductive AnyFill where
  | solid (f : Fill)
  | gradient (g : GradientFill)

/-- `AnyStroke` from shape.rs: a solid or gradient stroke. -/
inductive AnyStroke where
  | solid (s : Stroke)
  | gradient (g : GradientStroke)

/-- `StyledShape` from shape.rs: a (shape, fill, stroke, transform) tuple
produced by the style cascade. -/
structure StyledShape where
  shape : ShapeLayer
  fill : AnyFill
  stroke : Option AnyStroke
  transform : Transform
  styles : List ShapeLayer

/-!
Embedding of `StyledShapeIter::next` (shape.rs lines 24-105).  The three
forward scans inside the loop body are factored into helper functions over
the list suffix starting right after the current shape; `findStrokeAux`
additionally carries the absolute index of the suffix head because the
stroke cursor compares absolute indices.
-/

/-- The transform scan of `StyledShapeIter::next`: walk the entries after the
current shape; a `Transform` entry supplies the local transform; the scan
stops (yielding the default transform) at the first drawable shape. -/
def findTransform : List ShapeLayer → Transform
  | [] => default
  | l :: rest =>
    match l.shape with
    | .transform t => t
    | s => if s.is_shape then default else findTransform rest

/-- The fill scan of `StyledShapeIter::next`: the first non-hidden fill or
gradient fill before the first `Transform` entry. -/
def findFill : List ShapeLayer → Option AnyFill
  | [] => none
  | l :: rest =>
    match l.shape with
    | .transform _ => none
    | .fill f => if l.hidden then findFill rest else some (.solid f)
    | .gradientFill g => if l.hidden then findFill rest else some (.gradient g)
    | _ => findFill rest

/-- The `find_stroke` flag of `StyledShapeIter::next`: true when some
non-hidden stroke or gradient stroke occurs before the first `Transform`. -/
def hasVisibleStroke : List ShapeLayer → Bool
  | [] => false
  | l :: rest =>
    match l.shape with
    | .transform _ => false
    | .stroke _ => if l.hidden then hasVisibleStroke rest else true
    | .gradientStroke _ => if l.hidden then hasVisibleStroke rest else true
    | _ => hasVisibleStroke rest

/-- The stroke selection of `StyledShapeIter::next`: the first non-hidden
stroke whose absolute index exceeds the stroke cursor `ki`, before the first
`Transform`.  `j` is the absolute index of the suffix head. -/
def findStrokeAux : List ShapeLayer → Nat → Nat → Option (AnyStroke × Nat)
  | [], _, _ => none
  | l :: rest, j, ki =>
    match l.shape with
    | .transform _ => none
    | .stroke s =>
      if l.hidden = false ∧ ki < j then some (.solid s, j)
      else findStrokeAux rest (j + 1) ki
    | .gradientStroke s =>
      if l.hidden = false ∧ ki < j then some (.gradient s, j)
      else findStrokeAux rest (j + 1) ki
    | _ => findStrokeAux rest (j + 1) ki

/-- `StyledShapeIter::next` (shape.rs lines 24-105): given the cascade list
and the two cursors (`shape_index`, `stroke_index`), produce the next styled
shape together with the updated cursors.  The Rust skip-loop and the two
`return self.next()` retries appear as the recursive calls. -/
def next (shapes : List ShapeLayer) (si ki : Nat) : Option (StyledShape × Nat × Nat) :=
  if h : si < shapes.length then
    let cur := shapes.get ⟨si, h⟩
    if cur.shape.is_shape = false ∧ cur.shape.is_group = false then
      next shapes (si + 1) (si + 1)
    else
      let tr := findTransform (shapes.drop (si + 1))
      let fillFound := findFill (shapes.drop (si + 1))
      let find_stroke := hasVisibleStroke (shapes.drop (si + 1))
      match findStrokeAux (shapes.drop (si + 1)) (si + 1) ki with
      | some (st, tsi) =>
        some ({ shape := cur, fill := fillFound.getD (.solid Fill.transparent),
                stroke := some st, transform := tr, styles := [] }, si, tsi)
      | none =>
        if find_stroke = true then
          next shapes (si + 1) (si + 1)
        else if fillFound.isNone ∧ cur.shape.is_group = false then
          next shapes (si + 1) (si + 1)
        else
          some ({ shape := cur, fill := fillFound.getD (.solid Fill.transparent),
                  stroke := none, transform := tr, styles := [] }, si + 1, si + 1)
  else none
termination_by shapes.length - si
decreasing_by all_goals omega

/-- A found stroke lies strictly beyond the stroke cursor and within the
scanned suffix. -/
theorem findStrokeAux_bound (l : List ShapeLayer) (j ki : Nat) (st : AnyStroke) (j' : Nat)
    (h : findStrokeAux l j ki = some (st, j')) : ki < j' ∧ j' < j + l.length := by
  induction l generalizing j with
  | nil => simp [findStrokeAux] at h
  | cons hd tl ih =>
    unfold findStrokeAux at h
    rcases hs : hd.shape with r | e | p | d | f | s | g | g2 | t | gr <;>
      simp only [hs] at h
    case transform => exact absurd h (by simp)
    case stroke =>
      split at h
      · rename_i hcond
        simp only [Option.some.injEq, Prod.mk.injEq] at h
        obtain ⟨-, hj⟩ := h
        simp only [List.length_cons]
        omega
      · have := ih (j + 1) h
        simp only [List.length_cons]
        omega
    case gradientStroke =>
      split at h
      · rename_i hcond
        simp only [Option.some.injEq, Prod.mk.injEq] at h
        obtain ⟨-, hj⟩ := h
        simp only [List.length_cons]
        omega
      · have := ih (j + 1) h
        simp only [List.length_cons]
        omega
    all_goals (have hb := ih (j + 1) h; simp only [List.length_cons]; omega)

/-- Cursor-progress postcondition of `next`: an emission either keeps the
shape cursor and strictly advances the stroke cursor (staying inside the
list), or strictly advances the shape cursor. -/
theorem next_state (shapes : List ShapeLayer) (si ki : Nat) (x : StyledShape)
    (si' ki' : Nat) (hnx : next shapes si ki = some (x, si', ki')) :
    si < shapes.length ∧
      ((si < si' ∧ si' ≤ shapes.length) ∨ (si' = si ∧ ki < ki' ∧ ki' < shapes.length)) := by
  induction si, ki using next.induct shapes with
  | case1 si ki hlt cur hskip ih =>
    rw [next] at hnx
    simp only [dif_pos hlt, if_pos hskip] at hnx
    have := ih hnx
    omega
  | case2 si ki hlt cur hskip st tsi hfs =>
    rw [next] at hnx
    simp only [dif_pos hlt, if_neg hskip, hfs, Option.some.injEq, Prod.mk.injEq] at hnx
    obtain ⟨-, h2, h3⟩ := hnx
    have hb := findStrokeAux_bound _ _ _ _ _ hfs
    rw [List.length_drop] at hb
    omega
  | case3 si ki hlt cur hskip fs hfs hstroke ih =>
    rw [next] at hnx
    simp only [dif_pos hlt, if_neg hskip, hfs, if_pos hstroke] at hnx
    have := ih hnx
    omega
  | case4 si ki hlt cur hskip ff fs hfs hstroke hfill ih =>
    rw [next] at hnx
    simp only [dif_pos hlt, if_neg hskip, hfs, if_neg hstroke, if_pos hfill] at hnx
    have := ih hnx
    omega
  | case5 si ki hlt cur hskip ff fs hfs hstroke hfill =>
    rw [next] at hnx
    simp only [dif_pos hlt, if_neg hskip, hfs, if_neg hstroke, if_neg hfill,
      Option.some.injEq, Prod.mk.injEq] at hnx
    obtain ⟨-, h2, h3⟩ := hnx
    omega
  | case6 si ki hge =>
    rw [next] at hnx
    simp only [dif_neg hge] at hnx
    exact Option.noConfusion hnx

/-- Driving `StyledShapeIter` to exhaustion: collect every styled shape the
iterator yields from the given cursors on. -/
def collectStyled (shapes : List ShapeLayer) (si ki : Nat) : List StyledShape :=
  match h : next shapes si ki with
  | none => []
  | some (x, si', ki') => x :: collectStyled shapes si' ki'
termination_by (shapes.length - si, shapes.length - ki)
decreasing_by
  have hp := next_state shapes si ki x si' ki' h
  rcases hp with ⟨hsi, hc | hc⟩
  · exact Prod.Lex.left _ _ (by omega)
  · rw [hc.1]
    exact Prod.Lex.right _ (by omega)

/-- `StyledShapeIterator::styled_shapes` for `ShapeGroup` (shape.rs lines
111-119), driven to a list: both cursors start at 0. -/
def ShapeGroup.styled_shapes (g : ShapeGroup) : List StyledShape :=
  collectStyled g.shapes 0 0

/-!
The cascade family of claim C1: one drawable shape, one non-hidden fill,
N non-hidden strokes and a terminating Transform entry.
-/

/-- A non-hidden fill entry of a cascade. -/
def fillEntry (f : Fill) : ShapeLayer := .mk none false (.fill f)

/-- A non-hidden stroke entry of a cascade. -/
def strokeEntry (s : Stroke) : ShapeLayer := .mk none false (.stroke s)

/-- A transform entry of a cascade. -/
def transformEntry (t : Transform) : ShapeLayer := .mk none false (.transform t)

/-- The cascade `[shape, Fill, Stroke_1 .. Stroke_N, Transform]` of claim C1. -/
def fillStrokeCascade (prim : ShapeLayer) (f : Fill) (ss : List Stroke)
    (t : Transform) : ShapeGroup :=
  ⟨prim :: fillEntry f :: (ss.map strokeEntry ++ [transformEntry t])⟩

/-- The styled shape that the cascade of claim C1 is expected to emit for one
of its strokes. -/
def cascadeEmit (prim : ShapeLayer) (f : Fill) (t : Transform) (s : Stroke) :
    StyledShape :=
  { shape := prim, fill := .solid f, stroke := some (.solid s), transform := t,
    styles := [] }

theorem findTransform_strokes (ss : List Stroke) (t : Transform) :
    findTransform (ss.map strokeEntry ++ [transformEntry t]) = t := by
  induction ss with
  | nil => simp [findTransform, transformEntry, ShapeLayer.shape]
  | cons s rest ih =>
    simpa [findTransform, strokeEntry, ShapeLayer.shape, Shape.is_shape] using ih

theorem hasVisibleStroke_strokes (ss : List Stroke) (t : Transform) :
    hasVisibleStroke (ss.map strokeEntry ++ [transformEntry t]) = !ss.isEmpty := by
  cases ss with
  | nil => simp [hasVisibleStroke, transformEntry, ShapeLayer.shape]
  | cons s rest =>
    simp [hasVisibleStroke, strokeEntry, ShapeLayer.shape, ShapeLayer.hidden]

theorem findStrokeAux_strokes (ss : List Stroke) (t : Transform) (j ki : Nat) :
    findStrokeAux (ss.map strokeEntry ++ [transformEntry t]) j ki =
      (if ki + 1 ≤ j then ss.head?.map fun s => (AnyStroke.solid s, j)
       else (ss[(ki + 1 - j)]?).map fun s => (AnyStroke.solid s, ki + 1)) := by
  induction ss generalizing j with
  | nil =>
    simp [findStrokeAux, transformEntry, ShapeLayer.shape]
  | cons s rest ih =>
    show findStrokeAux (strokeEntry s :: (rest.map strokeEntry ++ [transformEntry t])) j ki = _
    rw [findStrokeAux]
    simp only [strokeEntry, ShapeLayer.shape, ShapeLayer.hidden]
    by_cases hk : ki < j
    · rw [if_pos (by simp [hk]), if_pos (by omega)]
      simp
    · rw [if_neg (by simp [hk])]
      rw [if_neg (show ¬(ki + 1 ≤ j) by omega)]
      rw [ih (j + 1)]
      by_cases hkj : ki = j
      · subst hkj
        rw [if_pos (by omega)]
        have h1 : ki + 1 - ki = 1 := by omega
        rw [h1]
        simp [List.head?_eq_getElem?]
      · rw [if_neg (by omega)]
        have h2 : ki + 1 - j = (ki + 1 - (j + 1)) + 1 := by omega
        rw [h2]
        simp

theorem cascade_tail_flat (f : Fill) (ss : List Stroke) (t : Transform) :
    ∀ x ∈ fillEntry f :: (ss.map strokeEntry ++ [transformEntry t]),
      x.shape.is_shape = false ∧ x.shape.is_group = false := by
  intro x hx
  simp only [List.mem_cons, List.mem_append, List.mem_map, List.mem_singleton,
    List.not_mem_nil, or_false] at hx
  rcases hx with rfl | ⟨s, -, rfl⟩ | rfl <;>
    simp [fillEntry, strokeEntry, transformEntry, ShapeLayer.shape, Shape.is_shape,
      Shape.is_group]

/-- Past the leading shape, the C1 cascade holds only style and transform
entries, so the iterator's skip loop runs off the end and yields nothing. -/
theorem next_cascade_tail_none (prim : ShapeLayer) (f : Fill) (ss : List Stroke)
    (t : Transform) :
    ∀ m j ki, (fillStrokeCascade prim f ss t).shapes.length ≤ j + m → 1 ≤ j →
      next (fillStrokeCascade prim f ss t).shapes j ki = none := by
  intro m
  induction m with
  | zero =>
    intro j ki hle hj
    rw [next, dif_neg (by omega)]
  | succ m ih =>
    intro j ki hle hj
    rw [next]
    split
    case isFalse => rfl
    case isTrue hlt =>
      obtain ⟨k, rfl⟩ : ∃ k, j = k + 1 := ⟨j - 1, by omega⟩
      have hmem : (fillStrokeCascade prim f ss t).shapes.get ⟨k + 1, hlt⟩ ∈
          fillEntry f :: (ss.map strokeEntry ++ [transformEntry t]) := by
        show (prim :: _).get _ ∈ _
        rw [List.get_cons_succ]
        exact List.get_mem _ _ _
      have hflat := cascade_tail_flat f ss t _ hmem
      rw [if_pos hflat]
      exact ih (k + 2) (k + 2) (by omega) (by omega)

/-- One emission step of the C1 cascade, for a stroke cursor `ki ≥ 2` that
still has strokes left. -/
theorem next_cascade_mid (prim : ShapeLayer) (f : Fill) (ss : List Stroke)
    (t : Transform) (hprim : prim.shape.is_shape = true) (ki : Nat) (hki : 2 ≤ ki)
    (hlt : ki - 1 < ss.length) :
    next (fillStrokeCascade prim f ss t).shapes 0 ki =
      some (cascadeEmit prim f t (ss.get ⟨ki - 1, hlt⟩), 0, ki + 1) := by
  have hlen : 0 < (fillStrokeCascade prim f ss t).shapes.length := by
    simp [fillStrokeCascade]
  have hfsa : findStrokeAux
      (fillEntry f :: (ss.map strokeEntry ++ [transformEntry t])) 1 ki =
      some (.solid (ss.get ⟨ki - 1, hlt⟩), ki + 1) := by
    rw [findStrokeAux]
    simp only [fillEntry, ShapeLayer.shape]
    rw [findStrokeAux_strokes, if_neg (by omega)]
    have h1 : ki + 1 - 2 = ki - 1 := by omega
    rw [h1]
    simp [List.getElem?_eq_getElem hlt]
  have htr : findTransform
      (fillEntry f :: (ss.map strokeEntry ++ [transformEntry t])) = t := by
    rw [findTransform]
    simp only [fillEntry, ShapeLayer.shape, Shape.is_shape]
    rw [if_neg (by simp), findTransform_strokes]
  have hff : findFill
      (fillEntry f :: (ss.map strokeEntry ++ [transformEntry t])) =
      some (.solid f) := by
    rw [findFill]
    simp [fillEntry, ShapeLayer.shape, ShapeLayer.hidden]
  rw [next, dif_pos hlen]
  rw [if_neg (by simp [fillStrokeCascade, hprim])]
  have hdrop : (fillStrokeCascade prim f ss t).shapes.drop 1 =
      fillEntry f :: (ss.map strokeEntry ++ [transformEntry t]) := rfl
  rw [hdrop, hfsa, htr, hff]
  rfl

/-- When the stroke cursor has moved past the last stroke, the iterator finds
no fresh stroke, retries at the next entry and terminates. -/
theorem next_cascade_exhausted (prim : ShapeLayer) (f : Fill) (ss : List Stroke)
    (t : Transform) (hprim : prim.shape.is_shape = true) (ki : Nat) (hki : 2 ≤ ki)
    (hge : ss.length ≤ ki - 1) (hne : ss ≠ []) :
    next (fillStrokeCascade prim f ss t).shapes 0 ki = none := by
  have hlen : 0 < (fillStrokeCascade prim f ss t).shapes.length := by
    simp [fillStrokeCascade]
  have hfsa : findStrokeAux
      (fillEntry f :: (ss.map strokeEntry ++ [transformEntry t])) 1 ki = none := by
    rw [findStrokeAux]
    simp only [fillEntry, ShapeLayer.shape]
    rw [findStrokeAux_strokes, if_neg (by omega)]
    have h1 : ss[(ki + 1 - 2)]? = none := by
      rw [List.getElem?_eq_none]
      omega
    rw [h1]
    rfl
  have hvs : hasVisibleStroke
      (fillEntry f :: (ss.map strokeEntry ++ [transformEntry t])) = true := by
    rw [hasVisibleStroke]
    simp only [fillEntry, ShapeLayer.shape]
    rw [hasVisibleStroke_strokes]
    simpa using hne
  rw [next, dif_pos hlen]
  rw [if_neg (by simp [fillStrokeCascade, hprim])]
  have hdrop : (fillStrokeCascade prim f ss t).shapes.drop 1 =
      fillEntry f :: (ss.map strokeEntry ++ [transformEntry t]) := rfl
  rw [hdrop, hfsa, hvs]
  simp only [if_pos]
  exact next_cascade_tail_none prim f ss t
    ((fillStrokeCascade prim f ss t).shapes.length) 1 1 (by omega) (by omega)

/-- First emission of the C1 cascade: from the initial cursors, the iterator
pairs the shape with the first stroke and moves the stroke cursor onto it. -/
theorem next_cascade_start (prim : ShapeLayer) (f : Fill) (s0 : Stroke)
    (rest : List Stroke) (t : Transform) (hprim : prim.shape.is_shape = true) :
    next (fillStrokeCascade prim f (s0 :: rest) t).shapes 0 0 =
      some (cascadeEmit prim f t s0, 0, 2) := by
  have hlen : 0 < (fillStrokeCascade prim f (s0 :: rest) t).shapes.length := by
    simp [fillStrokeCascade]
  have hfsa : findStrokeAux
      (fillEntry f :: ((s0 :: rest).map strokeEntry ++ [transformEntry t])) 1 0 =
      some (.solid s0, 2) := by
    rw [findStrokeAux]
    simp only [fillEntry, ShapeLayer.shape]
    rw [findStrokeAux_strokes, if_pos (by omega)]
    simp
  have htr : findTransform
      (fillEntry f :: ((s0 :: rest).map strokeEntry ++ [transformEntry t])) = t := by
    rw [findTransform]
    simp only [fillEntry, ShapeLayer.shape, Shape.is_shape]
    rw [if_neg (by simp), findTransform_strokes]
  have hff : findFill
      (fillEntry f :: ((s0 :: rest).map strokeEntry ++ [transformEntry t])) =
      some (.solid f) := by
    rw [findFill]
    simp [fillEntry, ShapeLayer.shape, ShapeLayer.hidden]
  rw [next, dif_pos hlen]
  rw [if_neg (by simp [fillStrokeCascade, hprim])]
  have hdrop : (fillStrokeCascade prim f (s0 :: rest) t).shapes.drop 1 =
      fillEntry f :: ((s0 :: rest).map strokeEntry ++ [transformEntry t]) := rfl
  rw [hdrop, hfsa, htr, hff]
  rfl

/-- Tail of the C1 run: with the stroke cursor at `ki ≥ 2`, the remaining
emissions are exactly one per remaining stroke, in cascade order. -/
theorem collect_cascade_mid (prim : ShapeLayer) (f : Fill) (ss : List Stroke)
    (t : Transform) (hprim : prim.shape.is_shape = true) (hne : ss ≠ []) :
    ∀ d ki, 2 ≤ ki → ki + d = ss.length + 1 →
      collectStyled (fillStrokeCascade prim f ss t).shapes 0 ki =
        (ss.drop (ki - 1)).map (cascadeEmit prim f t) := by
  intro d
  induction d with
  | zero =>
    intro ki hki hsum
    rw [collectStyled]
    rw [next_cascade_exhausted prim f ss t hprim ki hki (by omega) hne]
    rw [List.drop_eq_nil_of_le (by omega)]
    simp
  | succ d ih =>
    intro ki hki hsum
    have hlt : ki - 1 < ss.length := by omega
    rw [collectStyled]
    rw [next_cascade_mid prim f ss t hprim ki hki hlt]
    show cascadeEmit prim f t (ss.get ⟨ki - 1, hlt⟩) ::
        collectStyled (fillStrokeCascade prim f ss t).shapes 0 (ki + 1) = _
    rw [ih (ki + 1) (by omega) (by omega)]
    rw [List.drop_eq_getElem_cons hlt]
    have h1 : ki - 1 + 1 = ki := by omega
    rw [h1, List.map_cons]
    simp

/-- Claim C1: for every ShapeGroup whose cascade pairs one drawable shape
primitive with one non-hidden fill and N ≥ 1 non-hidden strokes before a
terminating Transform entry, `styled_shapes()` yields exactly N styled
shapes, one per stroke in cascade order, each carrying the same shape, the
same fill, that stroke, and the terminating Transform as local transform. -/
theorem C1_cascade_styled_shapes (prim : ShapeLayer) (f : Fill) (ss : List Stroke)
    (t : Transform) (hprim : prim.shape.is_shape = true) (hne : ss ≠ []) :
    (fillStrokeCascade prim f ss t).styled_shapes = ss.map (cascadeEmit prim f t) := by
  match ss, hne with
  | s0 :: rest, _ =>
    rw [ShapeGroup.styled_shapes, collectStyled]
    rw [next_cascade_start prim f s0 rest t hprim]
    show cascadeEmit prim f t s0 ::
        collectStyled (fillStrokeCascade prim f (s0 :: rest) t).shapes 0 2 = _
    rw [collect_cascade_mid prim f (s0 :: rest) t hprim (by simp) rest.length 2
      (by omega) (by simp; omega)]
    simp

/-- A concrete drawable shape entry: a rectangle. -/
def rectPrim : ShapeLayer :=
  .mk none false (.rectangle
    { direction := .clockwise, position := Animated.static ⟨0, 0⟩,
      size := Animated.static ⟨10, 10⟩, radius := Animated.static 0 })

/-- A concrete red fill. -/
def redFill : Fill :=
  { opacity := Animated.static 100, color := Animated.static ⟨255, 0, 0, 255⟩ }

/-- A concrete blue stroke of width 2. -/
def blueStroke : Stroke :=
  { line_cap := .butt, line_join := .miter, opacity := Animated.static 100,
    width := Animated.static 2, color := Animated.static ⟨0, 0, 255, 255⟩ }

/-- A concrete green stroke of width 1. -/
def greenStroke : Stroke :=
  { line_cap := .butt, line_join := .miter, opacity := Animated.static 100,
    width := Animated.static 1, color := Animated.static ⟨0, 255, 0, 255⟩ }

/-- Witness for claim C1, the spec's own scenario: the cascade
`[Rect, Fill(red), Stroke(blue, w=2), Stroke(green, w=1), Transform(T)]`
yields `(Rect, red, blue, T)` then `(Rect, red, green, T)`. -/
theorem C1_cascade_styled_shapes_witness :
    rectPrim.shape.is_shape = true ∧
    ([blueStroke, greenStroke] : List Stroke) ≠ [] ∧
    (fillStrokeCascade rectPrim redFill [blueStroke, greenStroke] {}).styled_shapes =
      [cascadeEmit rectPrim redFill {} blueStroke,
       cascadeEmit rectPrim redFill {} greenStroke] :=
  ⟨rfl, by simp, by
    rw [C1_cascade_styled_shapes rectPrim redFill [blueStroke, greenStroke] {} rfl
      (by simp)]
    rfl⟩

/-!
Embedding of `Bezier::to_path` (shape.rs lines 293-331).  The `PathBuilder`
sink is embedded as the list of operations pushed into it.  The source
compares points with lyon's `approx_eq`; over exact rationals this is
embedded as exact equality.
-/

/-- A `PathBuilder` operation (`begin`, `line_to`, `quadratic_bezier_to`,
`cubic_bezier_to`, `end`). -/
inductive PathOp where
  | begin (p : Vec2)
  | lineTo (p : Vec2)
  | quadraticTo (c p : Vec2)
  | cubicTo (c1 c2 p : Vec2)
  | endOp (closed : Bool)
deriving DecidableEq, Repr

/-- The per-segment loop of `Bezier::to_path`: `prev` is the previous vertex,
and the three lists are the remaining vertices, the out-tangents (from the
previous vertex on) and the in-tangents (from the current vertex on); the
Rust `zip`s stop at the shortest list.  `p1`/`p2` are the absolute control
points `prev + out` and `vertex + in`; the source tests those (not the
tangents) against zero. -/
def bezierSegs : Vec2 → List Vec2 → List Vec2 → List Vec2 → List PathOp
  | p0, p :: ps, c1 :: c1s, c2 :: c2s =>
    let p1 := p0 + c1
    let p2 := p + c2
    (if p1 = 0 ∧ p2 = 0 then PathOp.lineTo p
     else if p1 = p2 then PathOp.quadraticTo p1 p
     else PathOp.cubicTo p1 p2 p) :: bezierSegs p ps c1s c2s
  | _, _, _, _ => []

/-- `Bezier::to_path`: begin at the first vertex (empty vertex lists emit
nothing), one operation per adjacent vertex pair, a closing cubic back to
the first vertex when `closed`, and a final `end(closed)`.  Rust indexing
into the tangent arrays panics when they are shorter than the vertex array;
the embedding totalises those reads with a zero default, and every theorem
below assumes the parallel-array well-formedness, under which the default is
never consulted. -/
def Bezier.to_path (b : Bezier) : List PathOp :=
  match b.verticies with
  | [] => []
  | p0 :: rest =>
    PathOp.begin p0 ::
      (bezierSegs p0 rest b.out_tangent b.in_tangent.tail ++
        (if b.closed then
          [PathOp.cubicTo
            (b.verticies.getD (b.verticies.length - 1) 0 +
              b.out_tangent.getD (b.verticies.length - 1) 0)
            (p0 + b.in_tangent.getD 0 0) p0]
         else []) ++ [PathOp.endOp b.closed])

/-- The segment operation as the amended claim C5 states it: line when both
absolute control points are the origin, quadratic when they coincide, cubic
otherwise. -/
def specSegOp (prev pnext cout cin : Vec2) : PathOp :=
  let c1 := prev + cout
  let c2 := pnext + cin
  if c1 = 0 ∧ c2 = 0 then PathOp.lineTo pnext
  else if c1 = c2 then PathOp.quadraticTo c1 pnext
  else PathOp.cubicTo c1 c2 pnext

/-- The end point a path operation draws to, if any. -/
def PathOp.target : PathOp → Option Vec2
  | .begin p => some p
  | .lineTo p => some p
  | .quadraticTo _ p => some p
  | .cubicTo _ _ p => some p
  | .endOp _ => none

theorem bezierSegs_eq_map (vs : List Vec2) :
    ∀ (p0 : Vec2) (couts cins : List Vec2), vs.length ≤ couts.length →
      vs.length ≤ cins.length →
      bezierSegs p0 vs couts cins =
        (List.range vs.length).map fun i =>
          specSegOp ((p0 :: vs).getD i 0) (vs.getD i 0) (couts.getD i 0)
            (cins.getD i 0) := by
  induction vs with
  | nil => intro p0 couts cins h1 h2; simp [bezierSegs]
  | cons p ps ih =>
    intro p0 couts cins h1 h2
    match couts, cins with
    | c1 :: c1s, c2 :: c2s =>
      rw [bezierSegs]
      simp only [List.length_cons]
      rw [List.range_succ_eq_map, List.map_cons, List.map_map]
      congr 1
      rw [ih p c1s c2s (by simpa using h1) (by simpa using h2)]
      apply List.map_congr_left
      intro i hi
      simp [specSegOp, List.getD_cons_succ]

/-- Claim C5, amended: `to_path` begins at the first vertex and, per adjacent
vertex pair, emits a line when both absolute control points (previous vertex
plus its out-tangent, next vertex plus its in-tangent) equal the origin — not
when the tangents are zero-length — a quadratic when the two absolute control
points coincide, and a cubic otherwise; when `closed` it emits a final cubic
from the last vertex back to the first using the last out-tangent and first
in-tangent, so the emitted path begins and ends at the same point. -/
theorem C5_to_path_amended (b : Bezier) (p0 : Vec2) (rest : List Vec2)
    (hv : b.verticies = p0 :: rest)
    (hin : b.in_tangent.length = b.verticies.length)
    (hout : b.out_tangent.length = b.verticies.length) :
    b.to_path =
      PathOp.begin p0 ::
        (((List.range (b.verticies.length - 1)).map fun i =>
            specSegOp (b.verticies.getD i 0) (b.verticies.getD (i + 1) 0)
              (b.out_tangent.getD i 0) (b.in_tangent.getD (i + 1) 0)) ++
          (if b.closed then
            [PathOp.cubicTo
              (b.verticies.getD (b.verticies.length - 1) 0 +
                b.out_tangent.getD (b.verticies.length - 1) 0)
              (p0 + b.in_tangent.getD 0 0) p0]
           else []) ++ [PathOp.endOp b.closed]) ∧
    b.to_path.head? = some (.begin p0) ∧
    (b.closed = true →
      b.to_path.dropLast.getLast?.bind PathOp.target = some p0) := by
  obtain ⟨closed, verts, ins, outs⟩ := b
  simp only at hv hin hout
  subst hv
  obtain ⟨i0, itail, rfl⟩ : ∃ a l, ins = a :: l := by
    cases ins with
    | nil => simp at hin
    | cons a l => exact ⟨a, l, rfl⟩
  have hmap : ((List.range rest.length).map fun i =>
        specSegOp ((p0 :: rest).getD i 0) ((p0 :: rest).getD (i + 1) 0)
          (outs.getD i 0) ((i0 :: itail).getD (i + 1) 0)) =
      (List.range rest.length).map fun i =>
        specSegOp ((p0 :: rest).getD i 0) (rest.getD i 0) (outs.getD i 0)
          (itail.getD i 0) := by
    apply List.map_congr_left
    intro i hi
    simp [List.getD_cons_succ]
  have hmain : Bezier.to_path ⟨closed, p0 :: rest, i0 :: itail, outs⟩ =
      PathOp.begin p0 ::
        (((List.range rest.length).map fun i =>
            specSegOp ((p0 :: rest).getD i 0) ((p0 :: rest).getD (i + 1) 0)
              (outs.getD i 0) ((i0 :: itail).getD (i + 1) 0)) ++
          (if closed then
            [PathOp.cubicTo
              ((p0 :: rest).getD rest.length 0 + outs.getD rest.length 0)
              (p0 + i0) p0]
           else []) ++ [PathOp.endOp closed]) := by
    rw [Bezier.to_path]
    simp only [List.length_cons, List.tail_cons, Nat.add_sub_cancel, List.getD_cons_zero]
    rw [bezierSegs_eq_map rest p0 outs itail (by simp at hout ⊢; omega)
      (by simp at hin ⊢; omega), hmap]
  refine ⟨by simpa using hmain, by rw [hmain]; rfl, ?_⟩
  intro hcl
  subst hcl
  have h2 : Bezier.to_path ⟨true, p0 :: rest, i0 :: itail, outs⟩ =
      (PathOp.begin p0 :: (((List.range rest.length).map fun i =>
          specSegOp ((p0 :: rest).getD i 0) ((p0 :: rest).getD (i + 1) 0)
            (outs.getD i 0) ((i0 :: itail).getD (i + 1) 0)) ++
        [PathOp.cubicTo
          ((p0 :: rest).getD rest.length 0 + outs.getD rest.length 0)
          (p0 + i0) p0])) ++ [PathOp.endOp true] := by
    rw [hmain]
    simp
  rw [h2, List.dropLast_concat, ← List.cons_append, List.getLast?_concat]
  rfl

/-- The concrete Bézier refuting claim C5 as stated: two vertices, all
tangents zero-length, open. -/
def cexBezierC5 : Bezier :=
  { closed := false, verticies := [⟨1, 0⟩, ⟨2, 0⟩],
    in_tangent := [⟨0, 0⟩, ⟨0, 0⟩], out_tangent := [⟨0, 0⟩, ⟨0, 0⟩] }

/-- Counterexample to claim C5 as stated: with both tangents of the single
vertex pair zero-length, the claim requires a `line_to`, but `to_path` tests
the absolute control points (1,0) and (2,0) against the origin and emits a
cubic instead. -/
theorem C5_counterexample :
    cexBezierC5.out_tangent.getD 0 0 = 0 ∧
    cexBezierC5.in_tangent.getD 1 0 = 0 ∧
    cexBezierC5.to_path =
      [PathOp.begin ⟨1, 0⟩, PathOp.cubicTo ⟨1, 0⟩ ⟨2, 0⟩ ⟨2, 0⟩,
       PathOp.endOp false] ∧
    cexBezierC5.to_path ≠
      [PathOp.begin ⟨1, 0⟩, PathOp.lineTo ⟨2, 0⟩, PathOp.endOp false] := by
  have hev : cexBezierC5.to_path =
      [PathOp.begin ⟨1, 0⟩, PathOp.cubicTo ⟨1, 0⟩ ⟨2, 0⟩ ⟨2, 0⟩,
       PathOp.endOp false] := by
    rw [show cexBezierC5.to_path =
        PathOp.begin ⟨1, 0⟩ ::
          (bezierSegs ⟨1, 0⟩ [⟨2, 0⟩] [⟨0, 0⟩, ⟨0, 0⟩] [⟨0, 0⟩] ++ [] ++
            [PathOp.endOp false]) from rfl]
    rw [bezierSegs]
    rw [show bezierSegs ⟨2, 0⟩ [] [⟨0, 0⟩] [] = [] from rfl]
    norm_num [Vec2.add_def, Vec2.eq_iff, Vec2.zero_x, Vec2.zero_y]
  refine ⟨rfl, rfl, hev, ?_⟩
  rw [hev]
  simp

/-- A concrete closed Bézier for the C5 witness. -/
def witBezierC5 : Bezier :=
  { closed := true, verticies := [⟨0, 0⟩, ⟨4, 0⟩],
    in_tangent := [⟨0, 1⟩, ⟨1, 1⟩], out_tangent := [⟨0, 2⟩, ⟨2, 0⟩] }

/-- Witness for the amended claim C5 at a concrete closed Bézier: the
hypotheses hold and the emitted path ends back at the first vertex. -/
theorem C5_to_path_amended_witness :
    witBezierC5.verticies = ⟨0, 0⟩ :: [⟨4, 0⟩] ∧
    witBezierC5.in_tangent.length = witBezierC5.verticies.length ∧
    witBezierC5.out_tangent.length = witBezierC5.verticies.length ∧
    witBezierC5.to_path.dropLast.getLast?.bind PathOp.target = some ⟨0, 0⟩ :=
  ⟨rfl, rfl, rfl,
    (C5_to_path_amended witBezierC5 ⟨0, 0⟩ [⟨4, 0⟩] rfl rfl rfl).2.2 rfl⟩

/-!
Embedding of the codec primitives of crates/ast/src/helpers.rs.

The JSON wire values are embedded with serde_json's internal number split:
an integer number (i64/u64) or a floating number (f64, embedded as an exact
rational).  A Rust panic (`panic!`, `todo!`, `Option::unwrap` on `None`) is
distinguished from a returned `Err` value by the `DecodeResult` sum.
-/

/-- A serde_json value. -/
inductive Json where
  | null
  | bool (b : Bool)
  | int (n : ℤ)
  | float (q : ℚ)
  | str (s : String)
  | arr (items : List Json)
  | obj (fields : List (String × Json))

/-- `serde_json::Value::get` on an object: the value of the first field with
the given key. -/
def Json.get : Json → String → Option Json
  | .obj fields, key => (fields.find? fun p => p.1 = key).map (·.2)
  | _, _ => none

/-- `serde_json::Value::as_u64`: only an integer number in `[0, 2^64)`
converts; floating numbers never do. -/
def Json.as_u64 : Json → Option ℕ
  | .int n => if 0 ≤ n ∧ n < 2 ^ 64 then some n.toNat else none
  | _ => none

/-- An error value returned through `Result::Err`. -/
inductive DecodeError where
  | unsupportedLayerKind (ty : ℕ)
  | invalidValue (msg : String)
deriving DecidableEq, Repr

/-- Outcome of running a Rust decoding function: a returned value, a returned
`Err`, or a panic (which aborts the decode instead of returning an error
result to the caller). -/
inductive DecodeResult (α : Type) where
  | ok (v : α)
  | errResult (e : DecodeError)
  | panicked (msg : String)
deriving DecidableEq, Repr

/-- Modelled from the spec: the ast crate's layer-content variants that the
hand-written deserializer (helpers.rs lines 44-91) can produce. -/
inductive AstLayerContent where
  | precomposition (ref_id : String)
  | solidColor (color : Rgba) (height : ℚ) (width : ℚ)
  | empty
  | shape (g : ShapeGroup)

/-- A numeric JSON field read as an f32. -/
def Json.as_f32 : Json → Option ℚ
  | .int n => some (n : ℚ)
  | .float q => some q
  | _ => none

/-- `impl Deserialize for LayerContent` (helpers.rs lines 44-91): dispatch on
the integer `ty` field.  `rgbaParse` stands for the model crate's
`FromStr for Rgba` (invoked through `str_to_rgba`, which `.unwrap()`s, hence
panics, on failure) and `shapeDec` for the derived
`Vec::<ShapeLayer>::deserialize`; both live outside the verified sources.
A missing or non-integer `ty` panics (`.unwrap()` on `None`); the
unsupported-`ty` arm panics with `unsupported type {ty}` — it does not
return an error result.  For `ty = 4` a missing or undecodable `shapes`
field falls back to the empty list (`unwrap_or_default` twice). -/
def LayerContent.deserialize (rgbaParse : String → Option Rgba)
    (shapeDec : Json → Option (List ShapeLayer)) (j : Json) :
    DecodeResult AstLayerContent :=
  match (j.get "ty").bind Json.as_u64 with
  | none => .panicked "called Option::unwrap on a None value"
  | some ty =>
    if ty = 0 then
      match j.get "refId" with
      | some (.str s) => .ok (.precomposition s)
      | _ => .panicked "called Result::unwrap on an Err value"
    else if ty = 1 then
      match j.get "sc" with
      | some (.str s) =>
        match rgbaParse s with
        | some color =>
          match (j.get "sh").bind Json.as_f32, (j.get "sw").bind Json.as_f32 with
          | some h, some w => .ok (.solidColor color h w)
          | _, _ => .panicked "called Result::unwrap on an Err value"
        | none => .panicked "called Result::unwrap on an Err value"
      | _ => .panicked "called Result::unwrap on an Err value"
    else if ty = 3 then .ok .empty
    else if ty = 4 then
      match j.get "shapes" with
      | none => .ok (.shape ⟨[]⟩)
      | some v =>
        match shapeDec v with
        | some shapes => .ok (.shape ⟨shapes⟩)
        | none => .ok (.shape ⟨[]⟩)
    else .panicked ("unsupported type " ++ toString ty)

/-!
The lenient number decoder (`NumberVistor`, helpers.rs lines 322-353).
-/

/-- Rust `f64::round`: round to nearest, halves away from zero. -/
def roundHalfAway (q : ℚ) : ℤ :=
  if 0 ≤ q then ⌊q + 1 / 2⌋ else -⌊1 / 2 - q⌋

/-- The Rust saturating float-to-integer cast `as u32` applied to a rounded
value: clamp into `[0, 2^32 - 1]`. -/
def f64_as_u32 (z : ℤ) : ℕ := (max 0 (min z (2 ^ 32 - 1))).toNat

/-- The Rust wrapping integer cast `i64 as u32`: reduce modulo `2^32`. -/
def i64_as_u32 (v : ℤ) : ℕ := (v % 2 ^ 32).toNat

/-- `NumberVistor::visit_f64` (and `visit_f32`): `v.round() as u32`. -/
def NumberVistor.visit_f64 (v : ℚ) : Option ℕ :=
  some (f64_as_u32 (roundHalfAway v))

/-- `NumberVistor::visit_i64`: `v as u32`, a wrapping cast. -/
def NumberVistor.visit_i64 (v : ℤ) : Option ℕ :=
  some (i64_as_u32 v)

/-- `NumberVistor::visit_u64`: `v as u32`, a wrapping cast. -/
def NumberVistor.visit_u64 (v : ℕ) : Option ℕ :=
  some (v % 2 ^ 32)

/-- `NumberVistor::visit_none`. -/
def NumberVistor.visit_none : Option ℕ := none

/-- A numeric wire value as serde presents it to the visitor: a nonnegative
integer reaches `visit_u64`, a negative one `visit_i64`, a floating number
`visit_f64`. -/
inductive WireNum where
  | intVal (n : ℤ)
  | floatVal (q : ℚ)
deriving DecidableEq, Repr

/-- `optional_u32_from_number` (helpers.rs lines 315-320):
`deserializer.deserialize_any(NumberVistor)` on an optional numeric field. -/
def optional_u32_from_number : Option WireNum → Option ℕ
  | none => NumberVistor.visit_none
  | some (.intVal n) =>
    if 0 ≤ n then NumberVistor.visit_u64 n.toNat else NumberVistor.visit_i64 n
  | some (.floatVal q) => NumberVistor.visit_f64 q

/-- `u32_from_number` (helpers.rs lines 308-313): same visitor, with the
result `.unwrap()`ed — an absent value panics. -/
def u32_from_number (w : Option WireNum) : DecodeResult ℕ :=
  match optional_u32_from_number w with
  | some n => .ok n
  | none => .panicked "called Option::unwrap on a None value"

/-!
The keyframe dual-form codec (helpers.rs lines 137-274).
-/

/-- `Value` (helpers.rs lines 137-143): a scalar, a list of scalars, or a
list of Bézier objects. -/
inductive HValue where
  | primitive (p : ℚ)
  | list (l : List ℚ)
  | complexBezier (b : List Bezier)

/-- `AnimatedHelper` (helpers.rs lines 155-160): the untagged wire form of a
keyframed property — a bare value or a list of keyframe objects. -/
inductive AnimatedHelper where
  | plain (v : HValue)
  | animatedList (ks : List (KeyFrame HValue))

/-- `impl From<AnimatedHelper> for Vec<KeyFrame<T>>` (helpers.rs lines
168-193): a bare value becomes a single keyframe with no start frame and no
easing; a list converts element-wise, keeping start frames and easing.
`fromVal` stands for the `FromTo<Value>` conversion of the target type. -/
def keyframes_from_animated {T : Type} (fromVal : HValue → T) :
    AnimatedHelper → List (KeyFrame T)
  | .plain v =>
    [{ value := fromVal v, start_frame := none, easing_in := none,
       easing_out := none }]
  | .animatedList ks =>
    ks.map fun k =>
      { value := fromVal k.value, start_frame := k.start_frame,
        easing_in := k.easing_in, easing_out := k.easing_out }

/-- `impl From<&Vec<KeyFrame<T>>> for AnimatedHelper` (helpers.rs lines
162-166): the body is `todo!()`, so every call panics. -/
def animatedHelper_from_keyframes {T : Type} (_ : List (KeyFrame T)) :
    DecodeResult AnimatedHelper :=
  .panicked "not yet implemented"

/-- The serialized wire form `array_from_keyframes` would produce. -/
inductive KeyframesWire where
  | bare (v : HValue)
  | array (ks : List (KeyFrame HValue))

/-- `array_from_keyframes` (helpers.rs lines 259-274): convert the keyframe
list back to the dual wire form via `AnimatedHelper::from` — which is
`todo!()`, so the encode path panics before choosing a form. -/
def array_from_keyframes {T : Type} (b : List (KeyFrame T)) :
    DecodeResult KeyframesWire :=
  match animatedHelper_from_keyframes b with
  | .ok (.plain v) => .ok (.bare v)
  | .ok (.animatedList ks) => .ok (.array ks)
  | .errResult e => .errResult e
  | .panicked m => .panicked m

/-- Claim C4 (code bug): the decode direction of the dual form works — a bare
wire value becomes a single keyframe with no start frame and no easing, and a
keyframe array converts element-wise — but the encode direction
unconditionally panics, because `AnimatedHelper::from(&Vec<KeyFrame<T>>)` is
`todo!()`; no property, not even a single static keyframe, encodes to the
bare-value form, so the claimed round trip fails. -/
theorem C4_keyframe_codec_code_bug :
    (∀ (T : Type) (fromVal : HValue → T) (v : HValue),
      keyframes_from_animated fromVal (.plain v) =
        [{ value := fromVal v, start_frame := none, easing_in := none,
           easing_out := none }]) ∧
    (∀ (T : Type) (b : List (KeyFrame T)),
      array_from_keyframes b = .panicked "not yet implemented") ∧
    array_from_keyframes [KeyFrame.from_value (HValue.primitive 1)] ≠
      .ok (.bare (.primitive 1)) :=
  ⟨fun _ _ _ => rfl, fun _ _ => rfl, fun h => DecodeResult.noConfusion h⟩

/-- Counterexample to claim C6 as stated: the float 2.5 decodes to 3 (Rust
`round` is half away from zero), not to the even 2; the integer -1 decodes to
4294967295 (`as u32` wraps), not to 0. -/
theorem C6_counterexample :
    optional_u32_from_number (some (.floatVal (5 / 2))) = some 3 ∧
    some (3 : ℕ) ≠ some 2 ∧
    optional_u32_from_number (some (.intVal (-1))) = some 4294967295 ∧
    some (4294967295 : ℕ) ≠ some 0 := by
  have hr : roundHalfAway (5 / 2) = 3 := by
    rw [roundHalfAway, if_pos (by norm_num)]
    have h3 : (5 / 2 + 1 / 2 : ℚ) = ((3 : ℤ) : ℚ) := by norm_num
    rw [h3, Int.floor_intCast]
  have hf : optional_u32_from_number (some (.floatVal (5 / 2))) = some 3 := by
    show NumberVistor.visit_f64 (5 / 2) = some 3
    rw [NumberVistor.visit_f64, hr]
    decide
  exact ⟨hf, by decide, by decide, by decide⟩

/-- Claim C6, amended: the lenient decoder accepts integer and floating wire
forms; a floating value is rounded half away from zero (not ties-to-even) and
saturated into `[0, 2^32)`, so negative floats decode to 0; a negative
integer wraps modulo `2^32` and so decodes to a huge nonzero value, not 0; an
absent value decodes to None. -/
theorem C6_lenient_number_amended :
    (∀ q : ℚ, q < 0 → NumberVistor.visit_f64 q = some 0) ∧
    (∀ q : ℚ, 0 ≤ q →
      NumberVistor.visit_f64 q = some ((min ⌊q + 1 / 2⌋ (2 ^ 32 - 1)).toNat)) ∧
    (∀ n : ℤ, -(2 ^ 32) < n → n < 0 →
      optional_u32_from_number (some (.intVal n)) = some ((2 ^ 32 + n).toNat) ∧
      (2 ^ 32 + n).toNat ≠ 0) ∧
    optional_u32_from_number none = none := by
  refine ⟨?_, ?_, ?_, rfl⟩
  · intro q hq
    rw [NumberVistor.visit_f64, roundHalfAway, if_neg (by linarith)]
    have h1 : 0 ≤ ⌊1 / 2 - q⌋ := Int.floor_nonneg.mpr (by linarith)
    rw [f64_as_u32]
    have h2 : min (-⌊1 / 2 - q⌋) (2 ^ 32 - 1) ≤ 0 :=
      le_trans (min_le_left _ _) (by omega)
    rw [max_eq_left h2]
    rfl
  · intro q hq
    rw [NumberVistor.visit_f64, roundHalfAway, if_pos hq, f64_as_u32]
    have h1 : (0 : ℤ) ≤ ⌊q + 1 / 2⌋ := Int.floor_nonneg.mpr (by linarith)
    have h2 : (0 : ℤ) ≤ min ⌊q + 1 / 2⌋ (2 ^ 32 - 1) :=
      le_min h1 (by norm_num)
    rw [max_eq_right h2]
  · intro n hlo hhi
    have hv : optional_u32_from_number (some (.intVal n)) =
        NumberVistor.visit_i64 n := by
      rw [optional_u32_from_number, if_neg (by omega)]
    rw [hv, NumberVistor.visit_i64, i64_as_u32]
    have h1 : n % 2 ^ 32 = 2 ^ 32 + n := by omega
    rw [h1]
    exact ⟨rfl, by omega⟩

/-- Witness for the amended claim C6 at concrete inputs: -3.0 decodes to 0,
2.5 decodes via round-half-away, -1 decodes to the wrapped value, absent
decodes to None. -/
theorem C6_lenient_number_amended_witness :
    (-3 : ℚ) < 0 ∧ NumberVistor.visit_f64 (-3) = some 0 ∧
    (0 : ℚ) ≤ 5 / 2 ∧
    NumberVistor.visit_f64 (5 / 2) =
      some ((min ⌊(5 / 2 : ℚ) + 1 / 2⌋ (2 ^ 32 - 1)).toNat) ∧
    (-(2 ^ 32) : ℤ) < -1 ∧ (-1 : ℤ) < 0 ∧
    optional_u32_from_number (some (.intVal (-1))) =
      some (((2 : ℤ) ^ 32 + -1).toNat) ∧
    optional_u32_from_number none = none :=
  ⟨by norm_num, C6_lenient_number_amended.1 (-3) (by norm_num), by norm_num,
   C6_lenient_number_amended.2.1 (5 / 2) (by norm_num), by norm_num,
   by norm_num,
   (C6_lenient_number_amended.2.2.1 (-1) (by norm_num) (by norm_num)).1,
   C6_lenient_number_amended.2.2.2⟩

/-- The JSON object `{"ty": 9}` refuting claim C7 as stated. -/
def cexJsonC7 : Json := .obj [("ty", .int 9)]

/-- Counterexample to claim C7 as stated: decoding a layer content with the
unsupported `ty = 9` panics with "unsupported type 9"; it does not return an
`UnsupportedLayerKind` error result to the caller. -/
theorem C7_counterexample :
    LayerContent.deserialize (fun _ => none) (fun _ => none) cexJsonC7 =
      .panicked ("unsupported type " ++ toString 9) ∧
    LayerContent.deserialize (fun _ => none) (fun _ => none) cexJsonC7 ≠
      .errResult (.unsupportedLayerKind 9) := by
  have h : LayerContent.deserialize (fun _ => none) (fun _ => none) cexJsonC7 =
      .panicked ("unsupported type " ++ toString 9) := rfl
  exact ⟨h, fun hc => DecodeResult.noConfusion (h ▸ hc)⟩

/-- Claim C7, amended: decoding a layer content whose integer `ty` is not one
of the supported kinds 0, 1, 3, 4 diverges by panicking with the message
`unsupported type {ty}` — aborting the decode — rather than returning an
`UnsupportedLayerKind` error result. -/
theorem C7_unsupported_ty_panics (rgbaParse : String → Option Rgba)
    (shapeDec : Json → Option (List ShapeLayer)) (j : Json) (ty : ℕ)
    (hty : (j.get "ty").bind Json.as_u64 = some ty)
    (h0 : ty ≠ 0) (h1 : ty ≠ 1) (h3 : ty ≠ 3) (h4 : ty ≠ 4) :
    LayerContent.deserialize rgbaParse shapeDec j =
      .panicked ("unsupported type " ++ toString ty) ∧
    ∀ e : DecodeError,
      LayerContent.deserialize rgbaParse shapeDec j ≠ .errResult e := by
  have h : LayerContent.deserialize rgbaParse shapeDec j =
      .panicked ("unsupported type " ++ toString ty) := by
    simp only [LayerContent.deserialize, hty]
    rw [if_neg h0, if_neg h1, if_neg h3, if_neg h4]
  exact ⟨h, fun e hc => DecodeResult.noConfusion (h ▸ hc)⟩

/-- Witness for the amended claim C7 at the concrete input `{"ty": 9}`. -/
theorem C7_unsupported_ty_panics_witness :
    ((Json.obj [("ty", Json.int 9)]).get "ty").bind Json.as_u64 = some 9 ∧
    (9 : ℕ) ≠ 0 ∧ (9 : ℕ) ≠ 1 ∧ (9 : ℕ) ≠ 3 ∧ (9 : ℕ) ≠ 4 ∧
    LayerContent.deserialize (fun _ => none) (fun _ => some [])
        (Json.obj [("ty", Json.int 9)]) =
      .panicked ("unsupported type " ++ toString 9) :=
  ⟨rfl, by decide, by decide, by decide, by decide,
   (C7_unsupported_ty_panics (fun _ => none) (fun _ => some [])
     (Json.obj [("ty", Json.int 9)]) 9 rfl (by decide) (by decide) (by decide)
     (by decide)).1⟩

/-!
Embedding of crates/core/src/timeline.rs.

Representation choices, each matching an observable of the source:
* slotmap keys are insertion positions (the builder only inserts, never
  removes, so `SlotMap` keys are exactly 0, 1, 2, … in insertion order);
* every `Rc<RefCell<HashMap>>` parent/standby pair shared by the siblings of
  one composition becomes an index (`comp`) into per-composition map lists in
  the builder state — sharing a pair is sharing the index;
* the unbounded `while` queue loop is run on explicit fuel: `Timeline::new`
  completing corresponds to the queue draining within the fuel (on
  cyclically nested assets the Rust loop never terminates and no timeline is
  built);
* the ancestor walks of the hierarchy passes carry a fuel of `store.length`,
  which is never exhausted on an acyclic parent chain (on a parent cycle the
  Rust walk never terminates);
* the ghost `meta` list (not a field of the Rust state) records, per staged
  layer, its composition and its source layer's `index`/`parent_index`, so
  that sibling relations can be stated; the algorithm never reads it.
-/

/-- Modelled from the spec: matte modes. -/
inductive MatteMode where
  | normal
  | alpha
  | invertedAlpha
  | luma
  | invertedLuma
deriving DecidableEq, Repr

/-- `TargetRef` of the staged layer: the originating layer or asset. -/
inductive TargetRef where
  | layer (id : ℕ)
  | asset (ref_id : String)
deriving DecidableEq, Repr

/-- Modelled from the spec: a precomposition reference (`ref_id` names an
asset). -/
structure PreCompositionRef where
  ref_id : String
deriving DecidableEq, Repr

/-- Modelled from the spec: a media reference. -/
structure MediaRef where
  ref_id : String
deriving DecidableEq, Repr

/-- Modelled from the spec: a media asset body. -/
structure Media where
  id : String
deriving DecidableEq, Repr

/-- Modelled from the spec: the model crate's layer content. -/
inductive LayerContent where
  | preCompositionRef (r : PreCompositionRef)
  | solidColor (color : Rgba) (width : ℚ) (height : ℚ)
  | mediaRef (r : MediaRef)
  | empty
  | shape (g : ShapeGroup)
  | text
  | media (m : Media)

/-- Modelled from the spec: a layer of a composition. -/
structure Layer where
  id : ℕ := 0
  index : Option ℕ := none
  parent_index : Option ℕ := none
  start_frame : ℚ := 0
  end_frame : ℚ := 0
  start_time : ℚ := 0
  transform : Option Transform := none
  matte_mode : Option MatteMode := none
  time_remapping_prop : Option (Animated ℚ) := none
  content : LayerContent

/-- `Layer::time_remapping()`. -/
def Layer.time_remapping (l : Layer) : Option (Animated ℚ) :=
  l.time_remapping_prop

/-- `Layer::new(content, start_frame, end_frame, start_time)` as used by the
media branch of the builder: remaining fields default. -/
def Layer.new (content : LayerContent) (sf ef st : ℚ) : Layer :=
  { content := content, start_frame := sf, end_frame := ef, start_time := st }

/-- Modelled from the spec: an asset — a precomposition or a media. -/
inductive Asset where
  | precomposition (id : String) (layers : List Layer)
  | media (m : Media)

/-- `Asset::id()`. -/
def Asset.id : Asset → String
  | .precomposition i _ => i
  | .media m => m.id

/-- Modelled from the spec: the decoded document root. -/
structure Model where
  frame_rate : ℚ
  start_frame : ℚ := 0
  end_frame : ℚ := 0
  layers : List Layer
  assets : List Asset

/-- Frame transform data of a staged layer (frame rate + time remapping). -/
structure FrameTransform where
  time_remapping : Option (Animated ℚ) := none
  frame_rate : ℚ := 0

/-- `FrameInfo`: an ancestor's start/end frames and frame transform. -/
structure FrameInfo where
  start_frame : ℚ
  end_frame : ℚ
  frame_transform : FrameTransform

/-- `StagedLayerMask`: a mask entry `(mask layer id, matte mode)`. -/
structure StagedLayerMask where
  id : ℕ
  mode : MatteMode
deriving DecidableEq, Repr

/-- Modelled from the spec: the renderable content of a staged layer. -/
inductive RenderableContent where
  | shape (g : ShapeGroup)
  | media (m : Media)
  | empty

/-- `StagedLayer`: a flattened, staged layer of the built timeline. -/
structure StagedLayer where
  id : ℕ
  content : RenderableContent
  target : TargetRef
  parent : Option ℕ := none
  zindex : ℚ := 0
  start_frame : ℚ
  end_frame : ℚ
  start_time : ℚ
  frame_rate : ℚ := 0
  transform : Transform
  transform_hierarchy : List Transform := []
  frame_transform : FrameTransform := {}
  frame_transform_hierarchy : List FrameInfo := []
  mask_hierarchy : List StagedLayerMask := []
  is_mask : Bool := false

/-- Modelled from the spec: `StagedLayer::new` copies timing fields, the
transform and the content from the source layer.  Text realization (and its
font errors) is not modelled, so a built timeline corresponds to
`Timeline::new` returning `Ok`. -/
def StagedLayer.new (layer : Layer) : StagedLayer :=
  { id := 0,
    content :=
      match layer.content with
      | .shape g => .shape g
      | .media m => .media m
      | _ => .empty,
    target := .layer layer.id,
    start_frame := layer.start_frame,
    end_frame := layer.end_frame,
    start_time := layer.start_time,
    transform := layer.transform.getD {} }

/-- The built timeline. -/
structure Timeline where
  start_frame : ℚ
  end_frame : ℚ
  frame_rate : ℚ
  store : List StagedLayer

/-- `Timeline::add_item` (timeline.rs lines 60-71): fold the layer's frame
range into the timeline's (the accumulators start from the initial 0.0), then
insert with a fresh key, writing the key into the layer's `id`. -/
def Timeline.add_item (t : Timeline) (layer : StagedLayer) : Timeline × ℕ :=
  let id := t.store.length
  ({ t with
      start_frame := min layer.start_frame t.start_frame,
      end_frame := max layer.end_frame t.end_frame,
      store := t.store ++ [{ layer with id := id }] }, id)

/-- `Timeline::item`. -/
def Timeline.item (t : Timeline) (id : ℕ) : Option StagedLayer :=
  t.store[id]?

/-- `LayerInfo` (timeline.rs lines 308-317); `comp` is the index of the
shared parent/standby map pair of the layer's composition. -/
structure LayerInfo where
  layer : Layer
  zindex : ℚ
  child_index_window : ℚ
  target_ref : TargetRef
  parent : Option ℕ
  comp : ℕ
  time_remapping : Option (Animated ℚ)

/-- Ghost bookkeeping for one staged layer: its composition and its source
layer's sibling index and parent index.  Never read by the algorithm. -/
structure LayerMeta where
  comp : ℕ
  index : Option ℕ
  parent_index : Option ℕ
deriving DecidableEq, Repr

/-- The builder state: the timeline under construction, the BFS queue, the
previously staged id (for matte linkage), the per-composition parent and
standby maps, and the ghost meta list (parallel to the store). -/
structure BuildState where
  timeline : Timeline
  queue : List LayerInfo
  previous : Option ℕ
  parentMaps : List (List (ℕ × ℕ))
  standbyMaps : List (List (ℕ × ℕ))
  meta : List LayerMeta

/-- `HashMap::get` on an association list (latest insert first). -/
def pmFind (m : List (ℕ × ℕ)) (k : ℕ) : Option ℕ :=
  (m.find? fun p => p.1 = k).map (·.2)

/-- `HashMap::insert` into the parent map of composition `c`. -/
def mapsInsert (maps : List (List (ℕ × ℕ))) (c k v : ℕ) :
    List (List (ℕ × ℕ)) :=
  maps.set c ((k, v) :: maps.getD c [])

/-- `standby_map.entry(k).or_default().push(id)` for composition `c`: the
standby map is kept as (key, waiting id) pairs in push order. -/
def sbPush (maps : List (List (ℕ × ℕ))) (c k id : ℕ) :
    List (List (ℕ × ℕ)) :=
  maps.set c (maps.getD c [] ++ [(k, id)])

/-- `standby_map.remove(k)` for composition `c`: the waiting ids under key
`k` in push order, and the maps without them. -/
def sbTake (maps : List (List (ℕ × ℕ))) (c k : ℕ) :
    List ℕ × List (List (ℕ × ℕ)) :=
  let m := maps.getD c []
  (((m.filter fun p => p.1 = k).map (·.2)),
    maps.set c (m.filter fun p => ¬p.1 = k))

/-- `timeline.store.get_mut(id)` followed by `child.parent = Some(p)`. -/
def setParent (store : List StagedLayer) (id : ℕ) (p : Option ℕ) :
    List StagedLayer :=
  match store[id]? with
  | some l => store.set id { l with parent := p }
  | none => store

/-- `timeline.store.get_mut(id).unwrap().is_mask = true`; `id` is the
previously inserted key, always live. -/
def setIsMask (store : List StagedLayer) (id : ℕ) : List StagedLayer :=
  match store[id]? with
  | some l => store.set id { l with is_mask := true }
  | none => store

/-- The tail of one loop iteration of `Timeline::new` (timeline.rs lines
171-222), after the `assets` children have been computed: stage the layer
(with matte linkage against the previous insertion), enqueue the children
with their containment parent, register the layer's own `index`, resolve its
`parent_index` against the composition's parent map or park it in the
standby map, and hand any waiting children their parent id. -/
def matteStore (s : BuildState) (matte : Option MatteMode) : List StagedLayer :=
  match s.previous, matte with
  | some pid, some _ => setIsMask s.timeline.store pid
  | _, _ => s.timeline.store

/-- The matte linkage applied to the staged layer about to be inserted: push
`(previous id, matte mode)` onto its mask stack. -/
def matteStaged (s : BuildState) (matte : Option MatteMode)
    (staged1 : StagedLayer) : StagedLayer :=
  match s.previous, matte with
  | some pid, some mode =>
    { staged1 with mask_hierarchy :=
        staged1.mask_hierarchy ++ [StagedLayerMask.mk pid mode] }
  | _, _ => staged1

/-- Step 6 of the iteration: register the layer's own `index`. -/
def registeredMaps (maps : List (List (ℕ × ℕ))) (comp : ℕ)
    (index : Option ℕ) (id : ℕ) : List (List (ℕ × ℕ)) :=
  match index with
  | some ind => mapsInsert maps comp ind id
  | none => maps

/-- Step 7, store side: set the new layer's parent when its `parent_index`
already resolves in the composition's parent map. -/
def resolvedStore (store : List StagedLayer) (pm : List (ℕ × ℕ)) (id : ℕ)
    (parent_index : Option ℕ) : List StagedLayer :=
  match parent_index with
  | some pidx =>
    match pmFind pm pidx with
    | some parent_id => setParent store id (some parent_id)
    | none => store
  | none => store

/-- Step 7, standby side: park the new layer when its `parent_index` does not
resolve yet. -/
def resolvedStandby (sb : List (List (ℕ × ℕ))) (comp : ℕ)
    (pm : List (ℕ × ℕ)) (id : ℕ) (parent_index : Option ℕ) :
    List (List (ℕ × ℕ)) :=
  match parent_index with
  | some pidx =>
    match pmFind pm pidx with
    | some _ => sb
    | none => sbPush sb comp pidx id
  | none => sb

/-- Step 8, store side: hand every child waiting on this layer's `index` its
parent id. -/
def handedStore (store : List StagedLayer) (sb : List (List (ℕ × ℕ)))
    (comp : ℕ) (id : ℕ) (index : Option ℕ) : List StagedLayer :=
  match index with
  | some ind =>
    ((sbTake sb comp ind).1).foldl (fun st cid => setParent st cid (some id)) store
  | none => store

/-- Step 8, standby side: drop the entries that were just handed out. -/
def handedStandby (sb : List (List (ℕ × ℕ))) (comp : ℕ) (index : Option ℕ) :
    List (List (ℕ × ℕ)) :=
  match index with
  | some ind => (sbTake sb comp ind).2
  | none => sb

def stageLayer (model : Model) (s : BuildState) (info : LayerInfo)
    (children : List LayerInfo) : BuildState :=
  let staged1 : StagedLayer :=
    { StagedLayer.new info.layer with
        target := info.target_ref, parent := info.parent,
        zindex := info.zindex, frame_rate := model.frame_rate,
        frame_transform :=
          { time_remapping := info.time_remapping,
            frame_rate := model.frame_rate } }
  let staged2 := matteStaged s info.layer.matte_mode staged1
  let timeline2 := { s.timeline with store := matteStore s info.layer.matte_mode }
  let inserted := timeline2.add_item staged2
  let timeline3 := inserted.1
  let id := inserted.2
  let queue2 := s.queue ++ children.map fun c => { c with parent := some id }
  let meta2 := s.meta ++ [⟨info.comp, info.layer.index, info.layer.parent_index⟩]
  let pm2 := registeredMaps s.parentMaps info.comp info.layer.index id
  let store4 := resolvedStore timeline3.store (pm2.getD info.comp []) id
    info.layer.parent_index
  let sb2 := resolvedStandby s.standbyMaps info.comp (pm2.getD info.comp []) id
    info.layer.parent_index
  let store5 := handedStore store4 sb2 info.comp id info.layer.index
  let sb3 := handedStandby sb2 info.comp info.layer.index
  { timeline := { timeline3 with store := store5 },
    queue := queue2, previous := some id,
    parentMaps := pm2, standbyMaps := sb3, meta := meta2 }

/-- One loop iteration of `Timeline::new` (timeline.rs lines 104-223) on the
dequeued `info`, whose queue entry has already been popped from `s`.  A
precomposition or media reference whose asset does not resolve is skipped
(`continue`) without staging anything.  Fresh parent/standby maps are
allocated for the children of a resolved precomposition, and (separately,
via `Default::default()`) for the spliced media child. -/
def processEntry (model : Model) (s : BuildState) (info : LayerInfo) :
    BuildState :=
  match info.layer.content with
  | .preCompositionRef r =>
    match model.assets.find? fun a => a.id = r.ref_id with
    | some (.precomposition _ asLayers) =>
      let step := info.child_index_window / ((asLayers.length : ℚ) + 1)
      let newComp := s.parentMaps.length
      let s2 := { s with parentMaps := s.parentMaps ++ [[]],
                         standbyMaps := s.standbyMaps ++ [[]] }
      let children := asLayers.enum.map fun pr =>
        { layer := pr.2, zindex := ((pr.1 : ℚ) + 1) * step + info.zindex,
          child_index_window := step, target_ref := .asset r.ref_id,
          parent := none, comp := newComp, time_remapping := none }
      stageLayer model s2 info children
    | _ => s
  | .mediaRef i =>
    match model.assets.find? fun a => a.id = i.ref_id with
    | some (.media m) =>
      let newComp := s.parentMaps.length
      let s2 := { s with parentMaps := s.parentMaps ++ [[]],
                         standbyMaps := s.standbyMaps ++ [[]] }
      let child : LayerInfo :=
        { layer := Layer.new (.media m) info.layer.start_frame
            info.layer.end_frame info.layer.start_time,
          zindex := info.zindex + 1 / 2, child_index_window := 1 / 2,
          target_ref := .asset i.ref_id, parent := none, comp := newComp,
          time_remapping := none }
      stageLayer model s2 info [child]
    | _ => s
  | _ => stageLayer model s info []

/-- The queue loop of `Timeline::new`, on explicit fuel: `some` exactly when
the queue drains within the fuel. -/
def runLoop (model : Model) : ℕ → BuildState → Option BuildState
  | 0, s => if s.queue.isEmpty then some s else none
  | fuel + 1, s =>
    match s.queue with
    | [] => some s
    | info :: rest => runLoop model fuel (processEntry model { s with queue := rest } info)

/-- The seeding of `Timeline::new` (timeline.rs lines 77-103): one queue
entry per top-level layer, `zindex` its position, window 1.0, all sharing
composition 0's maps. -/
def initState (model : Model) : BuildState :=
  { timeline := { start_frame := 0, end_frame := 0, frame_rate := 0, store := [] },
    queue := model.layers.enum.map fun pr =>
      { layer := pr.2, zindex := (pr.1 : ℚ), child_index_window := 1,
        target_ref := .layer pr.2.id, parent := none, comp := 0,
        time_remapping := pr.2.time_remapping },
    previous := none,
    parentMaps := [[]],
    standbyMaps := [[]],
    meta := [] }

/-- The ancestor walk of `Timeline::transform_hierarchy` (timeline.rs lines
232-244): push each ancestor's transform, stopping at a missing parent.  The
fuel bounds the chain; it is `store.length`, never exhausted on an acyclic
chain (on a parent cycle the Rust walk does not terminate). -/
def parentTransforms (store : List StagedLayer) : ℕ → Option ℕ → List Transform
  | _, none => []
  | 0, some _ => []
  | fuel + 1, some pid =>
    match store[pid]? with
    | none => []
    | some pl => pl.transform :: parentTransforms store fuel pl.parent

/-- `Timeline::transform_hierarchy(id)`: the layer's own transform first,
then its ancestors'. -/
def transformHierarchyOf (store : List StagedLayer) (id : ℕ) :
    Option (List Transform) :=
  match store[id]? with
  | none => none
  | some l => some (l.transform :: parentTransforms store store.length l.parent)

/-- `Timeline::build_opacity_hierarchy` (timeline.rs lines 246-258): collect
every layer's transform hierarchy, then write them back. -/
def build_opacity_hierarchy (tl : Timeline) : Timeline :=
  let result := (List.range tl.store.length).filterMap fun id =>
    (transformHierarchyOf tl.store id).map fun th => (id, th)
  { tl with
      store := result.foldl (fun st pr =>
        match st[pr.1]? with
        | some l => st.set pr.1 { l with transform_hierarchy := pr.2 }
        | none => st) tl.store }

/-- The `FrameInfo` of one staged layer. -/
def frameInfoOf (l : StagedLayer) : FrameInfo :=
  ⟨l.start_frame, l.end_frame, l.frame_transform⟩

/-- The ancestor walk of `Timeline::build_frame_hierarchy`. -/
def parentFrameInfos (store : List StagedLayer) : ℕ → Option ℕ → List FrameInfo
  | _, none => []
  | 0, some _ => []
  | fuel + 1, some pid =>
    match store[pid]? with
    | none => []
    | some pl => frameInfoOf pl :: parentFrameInfos store fuel pl.parent

/-- `Timeline::build_frame_hierarchy` (timeline.rs lines 261-282): for each
id in order, build the self-then-ancestors stack, reverse it (root first) and
write it back; the store is updated as the iteration goes, but the walk reads
only fields this pass never writes. -/
def build_frame_hierarchy (tl : Timeline) : Timeline :=
  { tl with
      store := (List.range tl.store.length).foldl (fun st id =>
        match st[id]? with
        | none => st
        | some l =>
          st.set id { l with frame_transform_hierarchy :=
            (frameInfoOf l :: parentFrameInfos st st.length l.parent).reverse }) tl.store }

/-- The first (and, before the mask pass, only) mask entry of a layer's
stack, as a list. -/
def firstMask (l : StagedLayer) : List StagedLayerMask :=
  match l.mask_hierarchy.head? with
  | some m => [m]
  | none => []

/-- The ancestor walk of `Timeline::build_mask_hierarchy`: at most one mask
entry per ancestor (the first of that ancestor's stack). -/
def parentMasks (store : List StagedLayer) : ℕ → Option ℕ → List StagedLayerMask
  | _, none => []
  | 0, some _ => []
  | fuel + 1, some pid =>
    match store[pid]? with
    | none => []
    | some pl => firstMask pl ++ parentMasks store fuel pl.parent

/-- `Timeline::build_mask_hierarchy` (timeline.rs lines 284-305): for each id
in order, a layer that is itself a mask is skipped (a diagnostic is printed;
its stack is left untouched); otherwise its stack is rebuilt from its own
first entry and its ancestors' first entries, mutating the store as the
iteration goes. -/
def build_mask_hierarchy (tl : Timeline) : Timeline :=
  { tl with
      store := (List.range tl.store.length).foldl (fun st id =>
        match st[id]? with
        | none => st
        | some l =>
          if l.is_mask then st
          else
            st.set id { l with mask_hierarchy :=
              (firstMask l ++ parentMasks st st.length l.parent) }) tl.store }

/-- `Timeline::new` (timeline.rs lines 77-230) on explicit fuel for the queue
loop, also returning the ghost meta list: seed the queue with the top-level
layers, drain it, then run the opacity, frame and mask hierarchy passes. -/
def Timeline.new (model : Model) (fuel : ℕ) : Option (Timeline × List LayerMeta) :=
  (runLoop model fuel (initState model)).map fun s =>
    (build_mask_hierarchy (build_frame_hierarchy (build_opacity_hierarchy
      s.timeline)), s.meta)

instance : Inhabited Timeline :=
  ⟨{ start_frame := 0, end_frame := 0, frame_rate := 0, store := [] }⟩

/-!
Store-surgery lemmas shared by the timeline invariants.
-/

/-- Keys of the staged-layer store are their insertion positions. -/
abbrev StoreIdsOk (store : List StagedLayer) : Prop :=
  ∀ (i : ℕ) (l : StagedLayer), store[i]? = some l → l.id = i

theorem setParent_length (store : List StagedLayer) (id : ℕ) (p : Option ℕ) :
    (setParent store id p).length = store.length := by
  rw [setParent]
  cases h : store[id]? <;> simp

theorem setIsMask_length (store : List StagedLayer) (id : ℕ) :
    (setIsMask store id).length = store.length := by
  rw [setIsMask]
  cases h : store[id]? <;> simp

theorem idsOk_set (store : List StagedLayer) (j : ℕ) (l l' : StagedLayer)
    (hl : store[j]? = some l) (hid : l'.id = l.id) (h : StoreIdsOk store) :
    StoreIdsOk (store.set j l') := by
  intro i x hx
  rw [List.getElem?_set] at hx
  split at hx
  · split at hx
    · cases hx
      rename_i hji _
      rw [hid, h j l hl, hji]
    · exact Option.noConfusion hx
  · exact h i x hx

theorem idsOk_setParent (store : List StagedLayer) (id : ℕ) (p : Option ℕ)
    (h : StoreIdsOk store) : StoreIdsOk (setParent store id p) := by
  rw [setParent]
  cases hl : store[id]? with
  | none => exact h
  | some l => exact idsOk_set store id l _ hl rfl h

theorem idsOk_setIsMask (store : List StagedLayer) (id : ℕ)
    (h : StoreIdsOk store) : StoreIdsOk (setIsMask store id) := by
  rw [setIsMask]
  cases hl : store[id]? with
  | none => exact h
  | some l => exact idsOk_set store id l _ hl rfl h

theorem idsOk_append (store : List StagedLayer) (x : StagedLayer)
    (h : StoreIdsOk store) :
    StoreIdsOk (store ++ [{ x with id := store.length }]) := by
  intro i l hl
  rw [List.getElem?_append] at hl
  split at hl
  · exact h i l hl
  · rename_i hi
    rcases Nat.lt_trichotomy i store.length with h2 | h2 | h2
    · exact absurd h2 hi
    · subst h2
      simp at hl
      rw [← hl]
    · rw [List.getElem?_eq_none (by simp; omega)] at hl
      exact Option.noConfusion hl

theorem idsOk_foldl_setParent (ids : List ℕ) (v : Option ℕ) :
    ∀ store, StoreIdsOk store →
      StoreIdsOk (ids.foldl (fun st cid => setParent st cid v) store) := by
  induction ids with
  | nil => intro store h; exact h
  | cons a rest ih =>
    intro store h
    exact ih _ (idsOk_setParent store a v h)

theorem idsOk_matteStore (s : BuildState) (matte : Option MatteMode)
    (h : StoreIdsOk s.timeline.store) : StoreIdsOk (matteStore s matte) := by
  rcases hp : s.previous with _ | pid <;> rcases hm : matte with _ | mode <;>
    simp only [matteStore, hp, hm] <;>
    first
      | exact h
      | exact idsOk_setIsMask _ _ h

theorem idsOk_resolvedStore (store : List StagedLayer) (pm : List (ℕ × ℕ))
    (id : ℕ) (pi : Option ℕ) (h : StoreIdsOk store) :
    StoreIdsOk (resolvedStore store pm id pi) := by
  rcases pi with _ | pidx
  · exact h
  · rcases hf : pmFind pm pidx with _ | p
    · simpa only [resolvedStore, hf] using h
    · simpa only [resolvedStore, hf] using idsOk_setParent store id (some p) h

theorem idsOk_handedStore (store : List StagedLayer)
    (sb : List (List (ℕ × ℕ))) (comp id : ℕ) (index : Option ℕ)
    (h : StoreIdsOk store) : StoreIdsOk (handedStore store sb comp id index) := by
  rcases index with _ | ind
  · exact h
  · simpa only [handedStore] using
      idsOk_foldl_setParent (sbTake sb comp ind).1 (some id) store h

theorem idsOk_stageLayer (model : Model) (s : BuildState) (info : LayerInfo)
    (children : List LayerInfo) (h : StoreIdsOk s.timeline.store) :
    StoreIdsOk (stageLayer model s info children).timeline.store := by
  unfold stageLayer Timeline.add_item
  exact idsOk_handedStore _ _ _ _ _
    (idsOk_resolvedStore _ _ _ _
      (idsOk_append _ _ (idsOk_matteStore s info.layer.matte_mode h)))

theorem idsOk_processEntry (model : Model) (s : BuildState) (info : LayerInfo)
    (h : StoreIdsOk s.timeline.store) :
    StoreIdsOk (processEntry model s info).timeline.store := by
  cases hc : info.layer.content with
  | preCompositionRef r =>
    rcases hf : model.assets.find? fun a => a.id = r.ref_id with _ | ⟨aid, ls⟩ | m <;>
      simp only [processEntry, hc, hf]
    · exact h
    · exact idsOk_stageLayer _ _ _ _ h
    · exact h
  | mediaRef r =>
    rcases hf : model.assets.find? fun a => a.id = r.ref_id with _ | ⟨aid, ls⟩ | m <;>
      simp only [processEntry, hc, hf]
    · exact h
    · exact h
    · exact idsOk_stageLayer _ _ _ _ h
  | solidColor c w hh =>
    simp only [processEntry, hc]
    exact idsOk_stageLayer _ _ _ _ h
  | empty =>
    simp only [processEntry, hc]
    exact idsOk_stageLayer _ _ _ _ h
  | shape g =>
    simp only [processEntry, hc]
    exact idsOk_stageLayer _ _ _ _ h
  | text =>
    simp only [processEntry, hc]
    exact idsOk_stageLayer _ _ _ _ h
  | media m =>
    simp only [processEntry, hc]
    exact idsOk_stageLayer _ _ _ _ h

theorem idsOk_runLoop (model : Model) :
    ∀ (fuel : ℕ) (s s' : BuildState), StoreIdsOk s.timeline.store →
      runLoop model fuel s = some s' → StoreIdsOk s'.timeline.store := by
  intro fuel
  induction fuel with
  | zero =>
    intro s s' h hr
    rw [runLoop] at hr
    split at hr
    · cases hr; exact h
    · exact Option.noConfusion hr
  | succ fuel ih =>
    intro s s' h hr
    rw [runLoop] at hr
    split at hr
    · cases hr; exact h
    · rename_i info rest heq
      exact ih _ _ (idsOk_processEntry model { s with queue := rest } info h) hr

theorem idsOk_build_opacity (tl : Timeline) (h : StoreIdsOk tl.store) :
    StoreIdsOk (build_opacity_hierarchy tl).store := by
  unfold build_opacity_hierarchy
  have key : ∀ (prs : List (ℕ × List Transform)) (st : List StagedLayer),
      StoreIdsOk st →
      StoreIdsOk (prs.foldl (fun st pr =>
        match st[pr.1]? with
        | some l => st.set pr.1 { l with transform_hierarchy := pr.2 }
        | none => st) st) := by
    intro prs
    induction prs with
    | nil => intro st h; exact h
    | cons a rest ih =>
      intro st h
      apply ih
      rcases hl : st[a.1]? with _ | l
      · simpa only [hl] using h
      · simpa only [hl] using
          idsOk_set st a.1 l { l with transform_hierarchy := a.2 } hl rfl h
  exact key _ _ h

theorem idsOk_build_frame (tl : Timeline) (h : StoreIdsOk tl.store) :
    StoreIdsOk (build_frame_hierarchy tl).store := by
  unfold build_frame_hierarchy
  have key : ∀ (ids : List ℕ) (st : List StagedLayer), StoreIdsOk st →
      StoreIdsOk (ids.foldl (fun st id =>
        match st[id]? with
        | none => st
        | some l =>
          st.set id { l with frame_transform_hierarchy :=
            (frameInfoOf l :: parentFrameInfos st st.length l.parent).reverse }) st) := by
    intro ids
    induction ids with
    | nil => intro st h; exact h
    | cons a rest ih =>
      intro st h
      apply ih
      rcases hl : st[a]? with _ | l
      · simpa only [hl] using h
      · simpa only [hl] using
          idsOk_set st a l
            { l with frame_transform_hierarchy :=
              (frameInfoOf l :: parentFrameInfos st st.length l.parent).reverse }
            hl rfl h
  exact key _ _ h

theorem idsOk_build_mask (tl : Timeline) (h : StoreIdsOk tl.store) :
    StoreIdsOk (build_mask_hierarchy tl).store := by
  unfold build_mask_hierarchy
  have key : ∀ (ids : List ℕ) (st : List StagedLayer), StoreIdsOk st →
      StoreIdsOk (ids.foldl (fun st id =>
        match st[id]? with
        | none => st
        | some l =>
          if l.is_mask then st
          else
            st.set id { l with mask_hierarchy :=
              (firstMask l ++ parentMasks st st.length l.parent) }) st) := by
    intro ids
    induction ids with
    | nil => intro st h; exact h
    | cons a rest ih =>
      intro st h
      apply ih
      rcases hl : st[a]? with _ | l
      · simpa only [hl] using h
      · by_cases hm : l.is_mask = true
        · simpa only [hl, hm, if_true] using h
        · have := idsOk_set st a l
            { l with mask_hierarchy :=
              (firstMask l ++ parentMasks st st.length l.parent) } hl rfl h
          simp only [hl]
          rw [if_neg hm]
          exact this
  exact key _ _ h

/-- Claim C10: for every id present in a built timeline, the staged layer
returned by `item(id)` carries that id in its `id` field — `add_item` writes
the slot key into the layer, and the opacity, frame and mask hierarchy
passes preserve it. -/
theorem C10_item_id (model : Model) (fuel : ℕ) (tl : Timeline)
    (meta : List LayerMeta) (hnew : Timeline.new model fuel = some (tl, meta)) :
    ∀ i : ℕ, i < tl.store.length → (tl.item i).map StagedLayer.id = some i := by
  rcases hrun : runLoop model fuel (initState model) with _ | s
  · rw [Timeline.new, hrun] at hnew
    exact Option.noConfusion hnew
  · rw [Timeline.new, hrun] at hnew
    have hpair : (build_mask_hierarchy (build_frame_hierarchy
        (build_opacity_hierarchy s.timeline)), s.meta) = (tl, meta) :=
      Option.some.inj hnew
    have htl : tl = build_mask_hierarchy (build_frame_hierarchy
        (build_opacity_hierarchy s.timeline)) := (congrArg Prod.fst hpair).symm
    subst htl
    have h0 : StoreIdsOk (initState model).timeline.store := by
      intro i l hl
      rw [show (initState model).timeline.store = [] from rfl] at hl
      simp at hl
    have h1 := idsOk_runLoop model fuel _ s h0 hrun
    have h2 := idsOk_build_mask _ (idsOk_build_frame _ (idsOk_build_opacity _ h1))
    intro i hi
    rw [Timeline.item, List.getElem?_eq_getElem hi]
    have hid := h2 i _ (List.getElem?_eq_getElem hi)
    simp [hid]

/-- A one-layer document for the C10 witness. -/
def witModelC10 : Model :=
  { frame_rate := 30, layers := [{ content := .empty }], assets := [] }

/-- Witness for claim C10: on a concrete one-layer document, `item 0` returns
the layer with id 0. -/
theorem C10_item_id_witness :
    Timeline.new witModelC10 2 = some ((Timeline.new witModelC10 2).getD default) ∧
    0 < ((Timeline.new witModelC10 2).getD default).1.store.length ∧
    ((((Timeline.new witModelC10 2).getD default).1.item 0).map StagedLayer.id =
      some 0) :=
  ⟨rfl, by decide, C10_item_id witModelC10 2 _ _ rfl 0 (by decide)⟩

/-!
Projection stability of the store surgeries, for the frame-range (C8) and
mask (C9) invariants.
-/

theorem map_proj_set {β : Type} (f : StagedLayer → β) (store : List StagedLayer)
    (j : ℕ) (l l' : StagedLayer) (hl : store[j]? = some l) (hproj : f l' = f l) :
    (store.set j l').map f = store.map f := by
  rw [List.map_set, hproj]
  apply List.ext_getElem?
  intro n
  rw [List.getElem?_set]
  split
  · rename_i hjn
    subst hjn
    rw [if_pos (by
      rw [List.length_map]
      exact (List.getElem?_eq_some.mp hl).1)]
    rw [List.getElem?_map, hl]
    rfl
  · rfl

theorem map_proj_setParent {β : Type} (f : StagedLayer → β)
    (store : List StagedLayer) (id : ℕ) (p : Option ℕ)
    (hf : ∀ l : StagedLayer, f { l with parent := p } = f l) :
    (setParent store id p).map f = store.map f := by
  rw [setParent]
  cases hl : store[id]? with
  | none => rfl
  | some l => exact map_proj_set f store id l _ hl (hf l)

theorem map_proj_setIsMask {β : Type} (f : StagedLayer → β)
    (store : List StagedLayer) (id : ℕ)
    (hf : ∀ l : StagedLayer, f { l with is_mask := true } = f l) :
    (setIsMask store id).map f = store.map f := by
  rw [setIsMask]
  cases hl : store[id]? with
  | none => rfl
  | some l => exact map_proj_set f store id l _ hl (hf l)

theorem map_proj_foldl_setParent {β : Type} (f : StagedLayer → β)
    (hf : ∀ (l : StagedLayer) (p : Option ℕ), f { l with parent := p } = f l)
    (ids : List ℕ) (v : Option ℕ) :
    ∀ store : List StagedLayer,
      (ids.foldl (fun st cid => setParent st cid v) store).map f = store.map f := by
  induction ids with
  | nil => intro store; rfl
  | cons a rest ih =>
    intro store
    rw [List.foldl_cons, ih, map_proj_setParent f store a v (fun l => hf l v)]

theorem map_proj_matteStore {β : Type} (f : StagedLayer → β) (s : BuildState)
    (matte : Option MatteMode)
    (hf : ∀ l : StagedLayer, f { l with is_mask := true } = f l) :
    (matteStore s matte).map f = s.timeline.store.map f := by
  rcases hp : s.previous with _ | pid <;> rcases hm : matte with _ | mode <;>
    simp only [matteStore, hp, hm] <;>
    first
      | rfl
      | exact map_proj_setIsMask f _ _ hf

theorem map_proj_resolvedStore {β : Type} (f : StagedLayer → β)
    (store : List StagedLayer) (pm : List (ℕ × ℕ)) (id : ℕ) (pi : Option ℕ)
    (hf : ∀ (l : StagedLayer) (p : Option ℕ), f { l with parent := p } = f l) :
    (resolvedStore store pm id pi).map f = store.map f := by
  rcases pi with _ | pidx
  · rfl
  · rcases hfind : pmFind pm pidx with _ | p
    · simp only [resolvedStore, hfind]
    · simp only [resolvedStore, hfind]
      exact map_proj_setParent f store id (some p) (fun l => hf l (some p))

theorem map_proj_handedStore {β : Type} (f : StagedLayer → β)
    (store : List StagedLayer) (sb : List (List (ℕ × ℕ))) (comp id : ℕ)
    (index : Option ℕ)
    (hf : ∀ (l : StagedLayer) (p : Option ℕ), f { l with parent := p } = f l) :
    (handedStore store sb comp id index).map f = store.map f := by
  rcases index with _ | ind
  · rfl
  · simp only [handedStore]
    exact map_proj_foldl_setParent f hf _ _ store

/-- The frame ranges of a `Timeline` are the (0.0-seeded) fold of its staged
layers' frame ranges. -/
abbrev FramesOk (tl : Timeline) : Prop :=
  tl.start_frame = (tl.store.map StagedLayer.start_frame).foldl min 0 ∧
  tl.end_frame = (tl.store.map StagedLayer.end_frame).foldl max 0

theorem matteStaged_start (s : BuildState) (matte : Option MatteMode)
    (x : StagedLayer) : (matteStaged s matte x).start_frame = x.start_frame := by
  rcases hp : s.previous with _ | pid <;> rcases hm : matte with _ | mode <;>
    simp only [matteStaged, hp, hm]

theorem matteStaged_end (s : BuildState) (matte : Option MatteMode)
    (x : StagedLayer) : (matteStaged s matte x).end_frame = x.end_frame := by
  rcases hp : s.previous with _ | pid <;> rcases hm : matte with _ | mode <;>
    simp only [matteStaged, hp, hm]

theorem framesOk_stageLayer (model : Model) (s : BuildState) (info : LayerInfo)
    (children : List LayerInfo) (h : FramesOk s.timeline) :
    FramesOk (stageLayer model s info children).timeline := by
  obtain ⟨hs, he⟩ := h
  unfold stageLayer Timeline.add_item
  constructor
  · show min _ s.timeline.start_frame = _
    rw [map_proj_handedStore StagedLayer.start_frame _ _ _ _ _ (fun l p => rfl)]
    rw [map_proj_resolvedStore StagedLayer.start_frame _ _ _ _ (fun l p => rfl)]
    rw [List.map_append]
    rw [List.foldl_append]
    rw [map_proj_matteStore StagedLayer.start_frame _ _ (fun l => rfl)]
    rw [← hs]
    simp only [List.map_cons, List.map_nil, List.foldl_cons, List.foldl_nil]
    rw [min_comm]
  · show max _ s.timeline.end_frame = _
    rw [map_proj_handedStore StagedLayer.end_frame _ _ _ _ _ (fun l p => rfl)]
    rw [map_proj_resolvedStore StagedLayer.end_frame _ _ _ _ (fun l p => rfl)]
    rw [List.map_append]
    rw [List.foldl_append]
    rw [map_proj_matteStore StagedLayer.end_frame _ _ (fun l => rfl)]
    rw [← he]
    simp only [List.map_cons, List.map_nil, List.foldl_cons, List.foldl_nil]
    rw [max_comm]

theorem framesOk_processEntry (model : Model) (s : BuildState) (info : LayerInfo)
    (h : FramesOk s.timeline) : FramesOk (processEntry model s info).timeline := by
  cases hc : info.layer.content with
  | preCompositionRef r =>
    rcases hf : model.assets.find? fun a => a.id = r.ref_id with _ | ⟨aid, ls⟩ | m <;>
      simp only [processEntry, hc, hf]
    · exact h
    · exact framesOk_stageLayer _ _ _ _ h
    · exact h
  | mediaRef r =>
    rcases hf : model.assets.find? fun a => a.id = r.ref_id with _ | ⟨aid, ls⟩ | m <;>
      simp only [processEntry, hc, hf]
    · exact h
    · exact h
    · exact framesOk_stageLayer _ _ _ _ h
  | solidColor c w hh =>
    simp only [processEntry, hc]
    exact framesOk_stageLayer _ _ _ _ h
  | empty =>
    simp only [processEntry, hc]
    exact framesOk_stageLayer _ _ _ _ h
  | shape g =>
    simp only [processEntry, hc]
    exact framesOk_stageLayer _ _ _ _ h
  | text =>
    simp only [processEntry, hc]
    exact framesOk_stageLayer _ _ _ _ h
  | media m =>
    simp only [processEntry, hc]
    exact framesOk_stageLayer _ _ _ _ h

theorem framesOk_runLoop (model : Model) :
    ∀ (fuel : ℕ) (s s' : BuildState), FramesOk s.timeline →
      runLoop model fuel s = some s' → FramesOk s'.timeline := by
  intro fuel
  induction fuel with
  | zero =>
    intro s s' h hr
    rw [runLoop] at hr
    split at hr
    · cases hr; exact h
    · exact Option.noConfusion hr
  | succ fuel ih =>
    intro s s' h hr
    rw [runLoop] at hr
    split at hr
    · cases hr; exact h
    · rename_i info rest heq
      exact ih _ _ (framesOk_processEntry model { s with queue := rest } info h) hr

theorem map_proj_build_opacity {β : Type} (f : StagedLayer → β)
    (hf : ∀ (l : StagedLayer) (th : List Transform),
      f { l with transform_hierarchy := th } = f l) (tl : Timeline) :
    (build_opacity_hierarchy tl).store.map f = tl.store.map f := by
  unfold build_opacity_hierarchy
  have key : ∀ (prs : List (ℕ × List Transform)) (st : List StagedLayer),
      (prs.foldl (fun st pr =>
        match st[pr.1]? with
        | some l => st.set pr.1 { l with transform_hierarchy := pr.2 }
        | none => st) st).map f = st.map f := by
    intro prs
    induction prs with
    | nil => intro st; rfl
    | cons a rest ih =>
      intro st
      rw [List.foldl_cons, ih]
      rcases hl : st[a.1]? with _ | l
      · simp only [hl]
      · simp only [hl]
        exact map_proj_set f st a.1 l _ hl (hf l a.2)
  exact key _ _

theorem map_proj_build_frame {β : Type} (f : StagedLayer → β)
    (hf : ∀ (l : StagedLayer) (fh : List FrameInfo),
      f { l with frame_transform_hierarchy := fh } = f l) (tl : Timeline) :
    (build_frame_hierarchy tl).store.map f = tl.store.map f := by
  unfold build_frame_hierarchy
  have key : ∀ (ids : List ℕ) (st : List StagedLayer),
      (ids.foldl (fun st id =>
        match st[id]? with
        | none => st
        | some l =>
          st.set id { l with frame_transform_hierarchy :=
            (frameInfoOf l :: parentFrameInfos st st.length l.parent).reverse }) st).map f =
        st.map f := by
    intro ids
    induction ids with
    | nil => intro st; rfl
    | cons a rest ih =>
      intro st
      rw [List.foldl_cons, ih]
      rcases hl : st[a]? with _ | l
      · simp only [hl]
      · simp only [hl]
        exact map_proj_set f st a l _ hl (hf l _)
  exact key _ _

theorem map_proj_build_mask {β : Type} (f : StagedLayer → β)
    (hf : ∀ (l : StagedLayer) (mh : List StagedLayerMask),
      f { l with mask_hierarchy := mh } = f l) (tl : Timeline) :
    (build_mask_hierarchy tl).store.map f = tl.store.map f := by
  unfold build_mask_hierarchy
  have key : ∀ (ids : List ℕ) (st : List StagedLayer),
      (ids.foldl (fun st id =>
        match st[id]? with
        | none => st
        | some l =>
          if l.is_mask then st
          else
            st.set id { l with mask_hierarchy :=
              (firstMask l ++ parentMasks st st.length l.parent) }) st).map f =
        st.map f := by
    intro ids
    induction ids with
    | nil => intro st; rfl
    | cons a rest ih =>
      intro st
      rw [List.foldl_cons, ih]
      rcases hl : st[a]? with _ | l
      · simp only [hl]
      · by_cases hm : l.is_mask = true
        · simp only [hl, hm, if_true]
        · simp only [hl]
          rw [if_neg hm]
          exact map_proj_set f st a l _ hl (hf l _)
  exact key _ _

theorem build_opacity_start (tl : Timeline) :
    (build_opacity_hierarchy tl).start_frame = tl.start_frame := rfl

theorem build_frame_start (tl : Timeline) :
    (build_frame_hierarchy tl).start_frame = tl.start_frame := rfl

theorem build_mask_start (tl : Timeline) :
    (build_mask_hierarchy tl).start_frame = tl.start_frame := rfl

theorem build_opacity_end (tl : Timeline) :
    (build_opacity_hierarchy tl).end_frame = tl.end_frame := rfl

theorem build_frame_end (tl : Timeline) :
    (build_frame_hierarchy tl).end_frame = tl.end_frame := rfl

theorem build_mask_end (tl : Timeline) :
    (build_mask_hierarchy tl).end_frame = tl.end_frame := rfl

/-- Claim C8, amended: after `Timeline::new` completes, the timeline's frame
range is the min/max over the staged layers' frame ranges folded together
with the builder's initial `0.0` accumulators — not the bare min/max over
the staged layers: a document whose layers all start after frame 0 (or end
before it) still yields `start_frame = 0` (resp. `end_frame = 0`). -/
theorem C8_frame_range_amended (model : Model) (fuel : ℕ) (tl : Timeline)
    (meta : List LayerMeta) (hnew : Timeline.new model fuel = some (tl, meta)) :
    tl.start_frame = (tl.store.map StagedLayer.start_frame).foldl min 0 ∧
    tl.end_frame = (tl.store.map StagedLayer.end_frame).foldl max 0 := by
  rcases hrun : runLoop model fuel (initState model) with _ | s
  · rw [Timeline.new, hrun] at hnew
    exact Option.noConfusion hnew
  · rw [Timeline.new, hrun] at hnew
    have hpair : (build_mask_hierarchy (build_frame_hierarchy
        (build_opacity_hierarchy s.timeline)), s.meta) = (tl, meta) :=
      Option.some.inj hnew
    have htl : tl = build_mask_hierarchy (build_frame_hierarchy
        (build_opacity_hierarchy s.timeline)) := (congrArg Prod.fst hpair).symm
    subst htl
    have h0 : FramesOk (initState model).timeline := ⟨rfl, rfl⟩
    have h1 := framesOk_runLoop model fuel _ s h0 hrun
    obtain ⟨hs, he⟩ := h1
    constructor
    · rw [build_mask_start, build_frame_start, build_opacity_start,
        map_proj_build_mask StagedLayer.start_frame (fun l mh => rfl),
        map_proj_build_frame StagedLayer.start_frame (fun l fh => rfl),
        map_proj_build_opacity StagedLayer.start_frame (fun l th => rfl)]
      exact hs
    · rw [build_mask_end, build_frame_end, build_opacity_end,
        map_proj_build_mask StagedLayer.end_frame (fun l mh => rfl),
        map_proj_build_frame StagedLayer.end_frame (fun l fh => rfl),
        map_proj_build_opacity StagedLayer.end_frame (fun l th => rfl)]
      exact he

/-- A one-layer document whose layer spans frames 5..10, refuting claim C8 as
stated. -/
def cexModelC8 : Model :=
  { frame_rate := 30,
    layers := [{ content := .empty, start_frame := 5, end_frame := 10 }],
    assets := [] }

/-- Counterexample to claim C8 as stated: the single staged layer has
start/end frames 5/10, so the minimum over staged layers is 5 and the
maximum is 10, yet the built timeline reports `start_frame = 0` (and would
report `end_frame = 0` for an all-negative document), because `add_item`
folds the ranges into accumulators initialised to 0.0. -/
theorem C8_counterexample :
    ((Timeline.new cexModelC8 2).map fun p =>
      (p.1.start_frame, p.1.store.map StagedLayer.start_frame)) =
      some (0, [5]) ∧
    (0 : ℚ) ≠ 5 := by
  constructor
  · decide
  · norm_num

/-- Witness for the amended claim C8 on a concrete one-layer document. -/
theorem C8_frame_range_amended_witness :
    Timeline.new cexModelC8 2 = some ((Timeline.new cexModelC8 2).getD default) ∧
    ((Timeline.new cexModelC8 2).getD default).1.start_frame =
      ((((Timeline.new cexModelC8 2).getD default).1.store.map
        StagedLayer.start_frame).foldl min 0) :=
  ⟨rfl, (C8_frame_range_amended cexModelC8 2 _ _ rfl).1⟩

/-!
The mask-stack invariant for claim C9: before the mask pass, every staged
layer carries at most one mask entry (its own matte entry, pushed once at
staging time).
-/

abbrev MaskLenOk (store : List StagedLayer) : Prop :=
  ∀ (i : ℕ) (l : StagedLayer), store[i]? = some l → l.mask_hierarchy.length ≤ 1

theorem maskLen_set (store : List StagedLayer) (j : ℕ) (l l' : StagedLayer)
    (hl : store[j]? = some l) (hml : l'.mask_hierarchy.length ≤ 1)
    (h : MaskLenOk store) : MaskLenOk (store.set j l') := by
  intro i x hx
  rw [List.getElem?_set] at hx
  split at hx
  · split at hx
    · cases hx; exact hml
    · exact Option.noConfusion hx
  · exact h i x hx

theorem maskLen_setParent (store : List StagedLayer) (id : ℕ) (p : Option ℕ)
    (h : MaskLenOk store) : MaskLenOk (setParent store id p) := by
  rw [setParent]
  cases hl : store[id]? with
  | none => exact h
  | some l => exact maskLen_set store id l _ hl (h id l hl) h

theorem maskLen_setIsMask (store : List StagedLayer) (id : ℕ)
    (h : MaskLenOk store) : MaskLenOk (setIsMask store id) := by
  rw [setIsMask]
  cases hl : store[id]? with
  | none => exact h
  | some l => exact maskLen_set store id l _ hl (h id l hl) h

theorem maskLen_append (store : List StagedLayer) (x : StagedLayer)
    (hx : x.mask_hierarchy.length ≤ 1) (h : MaskLenOk store) :
    MaskLenOk (store ++ [{ x with id := store.length }]) := by
  intro i l hl
  rw [List.getElem?_append] at hl
  split at hl
  · exact h i l hl
  · rename_i hi
    rcases Nat.lt_trichotomy i store.length with h2 | h2 | h2
    · exact absurd h2 hi
    · subst h2
      simp at hl
      rw [← hl]
      exact hx
    · rw [List.getElem?_eq_none (by simp; omega)] at hl
      exact Option.noConfusion hl

theorem maskLen_foldl_setParent (ids : List ℕ) (v : Option ℕ) :
    ∀ store, MaskLenOk store →
      MaskLenOk (ids.foldl (fun st cid => setParent st cid v) store) := by
  induction ids with
  | nil => intro store h; exact h
  | cons a rest ih =>
    intro store h
    exact ih _ (maskLen_setParent store a v h)

theorem maskLen_matteStore (s : BuildState) (matte : Option MatteMode)
    (h : MaskLenOk s.timeline.store) : MaskLenOk (matteStore s matte) := by
  rcases hp : s.previous with _ | pid <;> rcases hm : matte with _ | mode <;>
    simp only [matteStore, hp, hm] <;>
    first
      | exact h
      | exact maskLen_setIsMask _ _ h

theorem maskLen_resolvedStore (store : List StagedLayer) (pm : List (ℕ × ℕ))
    (id : ℕ) (pi : Option ℕ) (h : MaskLenOk store) :
    MaskLenOk (resolvedStore store pm id pi) := by
  rcases pi with _ | pidx
  · exact h
  · rcases hf : pmFind pm pidx with _ | p
    · simpa only [resolvedStore, hf] using h
    · simpa only [resolvedStore, hf] using maskLen_setParent store id (some p) h

theorem maskLen_handedStore (store : List StagedLayer)
    (sb : List (List (ℕ × ℕ))) (comp id : ℕ) (index : Option ℕ)
    (h : MaskLenOk store) : MaskLenOk (handedStore store sb comp id index) := by
  rcases index with _ | ind
  · exact h
  · simpa only [handedStore] using
      maskLen_foldl_setParent (sbTake sb comp ind).1 (some id) store h

theorem matteStaged_maskLen (s : BuildState) (matte : Option MatteMode)
    (x : StagedLayer) (hx : x.mask_hierarchy = []) :
    (matteStaged s matte x).mask_hierarchy.length ≤ 1 := by
  rcases hp : s.previous with _ | pid <;> rcases hm : matte with _ | mode <;>
    simp only [matteStaged, hp, hm] <;> simp [hx]

theorem maskLen_stageLayer (model : Model) (s : BuildState) (info : LayerInfo)
    (children : List LayerInfo) (h : MaskLenOk s.timeline.store) :
    MaskLenOk (stageLayer model s info children).timeline.store := by
  unfold stageLayer Timeline.add_item
  exact maskLen_handedStore _ _ _ _ _
    (maskLen_resolvedStore _ _ _ _
      (maskLen_append _ _ (matteStaged_maskLen s info.layer.matte_mode _ rfl)
        (maskLen_matteStore s info.layer.matte_mode h)))

theorem maskLen_processEntry (model : Model) (s : BuildState) (info : LayerInfo)
    (h : MaskLenOk s.timeline.store) :
    MaskLenOk (processEntry model s info).timeline.store := by
  cases hc : info.layer.content with
  | preCompositionRef r =>
    rcases hf : model.assets.find? fun a => a.id = r.ref_id with _ | ⟨aid, ls⟩ | m <;>
      simp only [processEntry, hc, hf]
    · exact h
    · exact maskLen_stageLayer _ _ _ _ h
    · exact h
  | mediaRef r =>
    rcases hf : model.assets.find? fun a => a.id = r.ref_id with _ | ⟨aid, ls⟩ | m <;>
      simp only [processEntry, hc, hf]
    · exact h
    · exact h
    · exact maskLen_stageLayer _ _ _ _ h
  | solidColor c w hh =>
    simp only [processEntry, hc]
    exact maskLen_stageLayer _ _ _ _ h
  | empty =>
    simp only [processEntry, hc]
    exact maskLen_stageLayer _ _ _ _ h
  | shape g =>
    simp only [processEntry, hc]
    exact maskLen_stageLayer _ _ _ _ h
  | text =>
    simp only [processEntry, hc]
    exact maskLen_stageLayer _ _ _ _ h
  | media m =>
    simp only [processEntry, hc]
    exact maskLen_stageLayer _ _ _ _ h

theorem maskLen_runLoop (model : Model) :
    ∀ (fuel : ℕ) (s s' : BuildState), MaskLenOk s.timeline.store →
      runLoop model fuel s = some s' → MaskLenOk s'.timeline.store := by
  intro fuel
  induction fuel with
  | zero =>
    intro s s' h hr
    rw [runLoop] at hr
    split at hr
    · cases hr; exact h
    · exact Option.noConfusion hr
  | succ fuel ih =>
    intro s s' h hr
    rw [runLoop] at hr
    split at hr
    · cases hr; exact h
    · rename_i info rest heq
      exact ih _ _ (maskLen_processEntry model { s with queue := rest } info h) hr

/-- The mask pass leaves a layer whose `is_mask` flag is set untouched. -/
theorem mask_pass_skips_masks (tl : Timeline) :
    ∀ (i : ℕ) (l : StagedLayer), tl.store[i]? = some l → l.is_mask = true →
      (build_mask_hierarchy tl).store[i]? = some l := by
  unfold build_mask_hierarchy
  have key : ∀ (ids : List ℕ) (st : List StagedLayer) (i : ℕ) (l : StagedLayer),
      st[i]? = some l → l.is_mask = true →
      (ids.foldl (fun st id =>
        match st[id]? with
        | none => st
        | some l =>
          if l.is_mask then st
          else
            st.set id { l with mask_hierarchy :=
              (firstMask l ++ parentMasks st st.length l.parent) }) st)[i]? = some l := by
    intro ids
    induction ids with
    | nil => intro st i l hl hm; exact hl
    | cons a rest ih =>
      intro st i l hl hm
      rw [List.foldl_cons]
      by_cases hai : a = i
      · subst hai
        simp only [hl]
        rw [if_pos hm]
        exact ih st a l hl hm
      · rcases ha : st[a]? with _ | la
        · simp only [ha]
          exact ih st i l hl hm
        · by_cases hma : la.is_mask = true
          · simp only [ha]
            rw [if_pos hma]
            exact ih st i l hl hm
          · simp only [ha]
            rw [if_neg hma]
            apply ih
            · rw [List.getElem?_set, if_neg hai]
              exact hl
            · exact hm
  intro i l hl hm
  exact key _ _ i l hl hm

instance : Inhabited StagedLayer :=
  ⟨{ id := 0, content := .empty, target := .layer 0, start_frame := 0,
     end_frame := 0, start_time := 0, transform := {} }⟩

/-- Claim C9, amended: in a built timeline, a mask-wearing layer
(`is_mask = true`) is skipped by `build_mask_hierarchy` — a diagnostic is
printed and its mask stack is left exactly as staging left it (at most its
own single matte entry); the inner mask entry is not dropped. -/
theorem C9_mask_pass_amended (model : Model) (fuel : ℕ) (tl : Timeline)
    (meta : List LayerMeta) (hnew : Timeline.new model fuel = some (tl, meta)) :
    ∀ (i : ℕ) (l : StagedLayer), tl.store[i]? = some l → l.is_mask = true →
      l.mask_hierarchy.length ≤ 1 ∧
      ∀ s : BuildState, runLoop model fuel (initState model) = some s →
        (s.timeline.store[i]?).map (fun x => (x.is_mask, x.mask_hierarchy)) =
          some (true, l.mask_hierarchy) := by
  rcases hrun : runLoop model fuel (initState model) with _ | s
  · rw [Timeline.new, hrun] at hnew
    exact Option.noConfusion hnew
  · rw [Timeline.new, hrun] at hnew
    have hpair : (build_mask_hierarchy (build_frame_hierarchy
        (build_opacity_hierarchy s.timeline)), s.meta) = (tl, meta) :=
      Option.some.inj hnew
    have htl : tl = build_mask_hierarchy (build_frame_hierarchy
        (build_opacity_hierarchy s.timeline)) := (congrArg Prod.fst hpair).symm
    subst htl
    intro i l hl hm
    set tl2 := build_frame_hierarchy (build_opacity_hierarchy s.timeline) with htl2
    have hproj : tl2.store.map (fun x => (x.is_mask, x.mask_hierarchy)) =
        s.timeline.store.map (fun x => (x.is_mask, x.mask_hierarchy)) := by
      rw [htl2]
      rw [map_proj_build_frame (fun x => (x.is_mask, x.mask_hierarchy))
        (fun l fh => rfl)]
      rw [map_proj_build_opacity (fun x => (x.is_mask, x.mask_hierarchy))
        (fun l th => rfl)]
    have hlen : i < tl2.store.length := by
      have h1 : i < (build_mask_hierarchy tl2).store.length :=
        (List.getElem?_eq_some.mp hl).1
      have h2 : (build_mask_hierarchy tl2).store.length = tl2.store.length := by
        have := congrArg List.length (map_proj_build_mask
          (fun x => x.is_mask) (fun l mh => rfl) tl2)
        simpa using this
      omega
    rcases hl2 : tl2.store[i]? with _ | l2
    · rw [List.getElem?_eq_none_iff] at hl2
      omega
    · have hmask2 : l2.is_mask = true := by
        have := congrArg (fun m => m[i]?) (map_proj_build_mask
          (fun x => x.is_mask) (fun l mh => rfl) tl2)
        simp only [List.getElem?_map, hl, hl2, Option.map_some'] at this
        have hval : l.is_mask = l2.is_mask := Option.some.inj this
        rw [← hval, hm]
      have hfix := mask_pass_skips_masks tl2 i l2 hl2 hmask2
      have hll2 : l = l2 := by
        rw [hl] at hfix
        exact Option.some.inj hfix
      subst hll2
      have hmaskLen : MaskLenOk s.timeline.store := by
        have h0 : MaskLenOk (initState model).timeline.store := by
          intro j x hx
          rw [show (initState model).timeline.store = [] from rfl] at hx
          exact Option.noConfusion hx
        exact maskLen_runLoop model fuel _ s h0 hrun
      have hsval : (s.timeline.store[i]?).map
          (fun x => (x.is_mask, x.mask_hierarchy)) =
          some (l.is_mask, l.mask_hierarchy) := by
        have := congrArg (fun m => m[i]?) hproj
        simp only [List.getElem?_map, hl2] at this
        rw [← this]
        rfl
      constructor
      · rcases hs : s.timeline.store[i]? with _ | ls
        · rw [hs] at hsval
          exact Option.noConfusion hsval
        · rw [hs, Option.map_some'] at hsval
          have := Option.some.inj hsval
          have hmh : ls.mask_hierarchy = l.mask_hierarchy :=
            congrArg Prod.snd this
          rw [← hmh]
          exact hmaskLen i ls hs
      · intro s2 hrun2
        have hs2b : s2 = s := (Option.some.inj hrun2).symm
        subst hs2b
        rw [hsval, hm]

/-- Three empty layers; the second and third declare a matte mode, so both
the first and second staged layers become masks, and the second is a mask
carrying its own matte entry — nested masking. -/
def cexModelC9 : Model :=
  { frame_rate := 30,
    layers := [{ content := .empty },
               { content := .empty, matte_mode := some .alpha },
               { content := .empty, matte_mode := some .alpha }],
    assets := [] }

/-- Counterexample to claim C9 as stated: after the build, staged layer 1 has
`is_mask = true` and its mask hierarchy still contains the entry `(0, Alpha)`
— the builder printed a diagnostic but did not drop the inner mask. -/
theorem C9_counterexample :
    ((Timeline.new cexModelC9 4).map fun p =>
      p.1.store.map fun l => (l.is_mask, l.mask_hierarchy)) =
      some [(true, []), (true, [StagedLayerMask.mk 0 .alpha]),
            (false, [StagedLayerMask.mk 1 .alpha])] ∧
    ([StagedLayerMask.mk 0 MatteMode.alpha] : List StagedLayerMask) ≠ [] := by
  constructor
  · decide
  · decide

/-- Witness for the amended claim C9 at the concrete nested-matte document:
staged layer 1 is a mask and its stack, left untouched, has one entry. -/
theorem C9_mask_pass_amended_witness :
    Timeline.new cexModelC9 4 = some ((Timeline.new cexModelC9 4).getD default) ∧
    ((Timeline.new cexModelC9 4).getD default).1.store[1]? =
      some ((((Timeline.new cexModelC9 4).getD default).1.store[1]?).getD default) ∧
    ((((Timeline.new cexModelC9 4).getD default).1.store[1]?).getD default).is_mask
      = true ∧
    ((((Timeline.new cexModelC9 4).getD default).1.store[1]?).getD
      default).mask_hierarchy.length ≤ 1 :=
  ⟨rfl, rfl, by decide,
   (C9_mask_pass_amended cexModelC9 4 _ _ rfl 1 _ rfl (by decide)).1⟩

/-- Every queue entry carries a positive child-index window. -/
abbrev windowsPos (q : List LayerInfo) : Prop :=
  ∀ e ∈ q, 0 < e.child_index_window

theorem windowsPos_stageLayer (model : Model) (s : BuildState) (info : LayerInfo)
    (children : List LayerInfo) (hq : windowsPos s.queue)
    (hc : windowsPos children) :
    windowsPos (stageLayer model s info children).queue := by
  unfold stageLayer
  intro e he
  rw [List.mem_append] at he
  rcases he with he | he
  · exact hq e he
  · rw [List.mem_map] at he
    obtain ⟨c, hc2, rfl⟩ := he
    exact hc c hc2

theorem windowsPos_processEntry (model : Model) (s : BuildState)
    (info : LayerInfo) (hq : windowsPos s.queue)
    (hw : 0 < info.child_index_window) :
    windowsPos (processEntry model s info).queue := by
  cases hcon : info.layer.content with
  | preCompositionRef r =>
    rcases hf : model.assets.find? fun a => a.id = r.ref_id with _ | ⟨aid, ls⟩ | m <;>
      simp only [processEntry, hcon, hf]
    · exact hq
    · apply windowsPos_stageLayer _ _ _ _ hq
      intro e he
      rw [List.mem_map] at he
      obtain ⟨pr, hpr, rfl⟩ := he
      show 0 < info.child_index_window / ((ls.length : ℚ) + 1)
      apply div_pos hw
      positivity
    · exact hq
  | mediaRef r =>
    rcases hf : model.assets.find? fun a => a.id = r.ref_id with _ | ⟨aid, ls⟩ | m <;>
      simp only [processEntry, hcon, hf]
    · exact hq
    · exact hq
    · apply windowsPos_stageLayer _ _ _ _ hq
      intro e he
      rw [List.mem_singleton] at he
      subst he
      norm_num
  | solidColor c w hh =>
    simp only [processEntry, hcon]
    exact windowsPos_stageLayer _ _ _ _ hq (by intro e he; exact absurd he (by simp))
  | empty =>
    simp only [processEntry, hcon]
    exact windowsPos_stageLayer _ _ _ _ hq (by intro e he; exact absurd he (by simp))
  | shape g =>
    simp only [processEntry, hcon]
    exact windowsPos_stageLayer _ _ _ _ hq (by intro e he; exact absurd he (by simp))
  | text =>
    simp only [processEntry, hcon]
    exact windowsPos_stageLayer _ _ _ _ hq (by intro e he; exact absurd he (by simp))
  | media m =>
    simp only [processEntry, hcon]
    exact windowsPos_stageLayer _ _ _ _ hq (by intro e he; exact absurd he (by simp))

theorem windowsPos_init (model : Model) : windowsPos (initState model).queue := by
  intro e he
  simp only [initState, List.mem_map] at he
  obtain ⟨pr, hpr, rfl⟩ := he
  norm_num

/-- Claim C3: (1) every top-level queue entry starts with window 1 and the
builder's one-step expansion preserves window positivity, so every entry
ever dequeued has a positive window; (2) expanding a precomposition layer
with zindex `z` and window `w` over an asset with `n` layers enqueues child
`i` with zindex `(i+1)·(w/(n+1)) + z` and window `w/(n+1)`; (3) with
`0 < w`, all children's z-indices lie strictly inside `(z, z+w)` and
siblings are strictly ordered by document order. -/
theorem C3_precomp_zindex (model : Model) (s : BuildState) (info : LayerInfo)
    (r : PreCompositionRef) (aid : String) (asLayers : List Layer)
    (hcon : info.layer.content = .preCompositionRef r)
    (hfind : (model.assets.find? fun a => a.id = r.ref_id) =
      some (.precomposition aid asLayers)) :
    windowsPos (initState model).queue ∧
    (∀ (s2 : BuildState) (info2 : LayerInfo), windowsPos s2.queue →
      0 < info2.child_index_window →
      windowsPos (processEntry model s2 info2).queue) ∧
    (((processEntry model s info).queue.drop s.queue.length).map
        (fun q => (q.zindex, q.child_index_window)) =
      (List.range asLayers.length).map fun i : ℕ =>
        (((i : ℚ) + 1) * (info.child_index_window / ((asLayers.length : ℚ) + 1)) +
          info.zindex,
         info.child_index_window / ((asLayers.length : ℚ) + 1))) ∧
    (0 < info.child_index_window → ∀ i : ℕ, i < asLayers.length →
      info.zindex <
        ((i : ℚ) + 1) * (info.child_index_window / ((asLayers.length : ℚ) + 1)) +
          info.zindex ∧
      ((i : ℚ) + 1) * (info.child_index_window / ((asLayers.length : ℚ) + 1)) +
          info.zindex < info.zindex + info.child_index_window) ∧
    (0 < info.child_index_window → ∀ i j : ℕ, i < j → j < asLayers.length →
      ((i : ℚ) + 1) * (info.child_index_window / ((asLayers.length : ℚ) + 1)) +
          info.zindex <
        ((j : ℚ) + 1) * (info.child_index_window / ((asLayers.length : ℚ) + 1)) +
          info.zindex) := by
  refine ⟨windowsPos_init model,
    fun s2 info2 hq hw => windowsPos_processEntry model s2 info2 hq hw, ?_, ?_, ?_⟩
  · simp only [processEntry, hcon, hfind]
    unfold stageLayer
    rw [show ∀ (a b : List LayerInfo), (a ++ b).drop a.length = b from
      fun a b => List.drop_left a b]
    have henum : asLayers.enum.map Prod.fst = List.range asLayers.length :=
      List.enum_map_fst asLayers
    rw [← henum]
    simp only [List.map_map]
    apply List.map_congr_left
    intro pr hpr
    rfl
  · intro hw i hi
    set step := info.child_index_window / ((asLayers.length : ℚ) + 1) with hstep
    have hn : (0 : ℚ) < (asLayers.length : ℚ) + 1 := by positivity
    have hs : 0 < step := div_pos hw hn
    constructor
    · have : 0 < ((i : ℚ) + 1) * step := by positivity
      linarith
    · have hiq : ((i : ℚ) + 1) < (asLayers.length : ℚ) + 1 := by
        have : (i : ℚ) < (asLayers.length : ℚ) := by exact_mod_cast hi
        linarith
      have hmul : ((i : ℚ) + 1) * step < ((asLayers.length : ℚ) + 1) * step :=
        mul_lt_mul_of_pos_right hiq hs
      have hw2 : ((asLayers.length : ℚ) + 1) * step = info.child_index_window := by
        rw [hstep, mul_div_cancel₀]
        exact ne_of_gt hn
      linarith
  · intro hw i j hij hj
    set step := info.child_index_window / ((asLayers.length : ℚ) + 1) with hstep
    have hn : (0 : ℚ) < (asLayers.length : ℚ) + 1 := by positivity
    have hs : 0 < step := div_pos hw hn
    have hij2 : ((i : ℚ) + 1) < ((j : ℚ) + 1) := by
      have : (i : ℚ) < (j : ℚ) := by exact_mod_cast hij
      linarith
    have := mul_lt_mul_of_pos_right hij2 hs
    linarith

def witAsLayersC3 : List Layer :=
  [{ content := .empty }, { content := .empty }, { content := .empty }]

def witModelC3 : Model :=
  { frame_rate := 30,
    layers := [{ content := .preCompositionRef ⟨"a"⟩ }],
    assets := [.precomposition "a" witAsLayersC3] }

def witInfoC3 : LayerInfo :=
  { layer := { content := .preCompositionRef ⟨"a"⟩ },
    zindex := 2, child_index_window := 1,
    target_ref := .layer 0, parent := none, comp := 0,
    time_remapping := none }

/-- Witness for claim C3 at a precomposition layer referencing a three-layer
asset, entered with zindex 2 and window 1. -/
theorem C3_precomp_zindex_witness :
    (witInfoC3.layer.content = LayerContent.preCompositionRef ⟨"a"⟩) ∧
    ((witModelC3.assets.find? fun a => a.id = "a") =
      some (.precomposition "a" witAsLayersC3)) ∧
    (windowsPos (initState witModelC3).queue ∧
     (∀ (s2 : BuildState) (info2 : LayerInfo), windowsPos s2.queue →
       0 < info2.child_index_window →
       windowsPos (processEntry witModelC3 s2 info2).queue) ∧
     (((processEntry witModelC3 (initState witModelC3) witInfoC3).queue.drop
          (initState witModelC3).queue.length).map
         (fun q => (q.zindex, q.child_index_window)) =
       (List.range witAsLayersC3.length).map fun i : ℕ =>
         (((i : ℚ) + 1) *
             (witInfoC3.child_index_window /
               ((witAsLayersC3.length : ℚ) + 1)) + witInfoC3.zindex,
          witInfoC3.child_index_window /
            ((witAsLayersC3.length : ℚ) + 1))) ∧
     (0 < witInfoC3.child_index_window → ∀ i : ℕ, i < witAsLayersC3.length →
       witInfoC3.zindex <
         ((i : ℚ) + 1) *
             (witInfoC3.child_index_window /
               ((witAsLayersC3.length : ℚ) + 1)) + witInfoC3.zindex ∧
       ((i : ℚ) + 1) *
           (witInfoC3.child_index_window /
             ((witAsLayersC3.length : ℚ) + 1)) + witInfoC3.zindex <
         witInfoC3.zindex + witInfoC3.child_index_window) ∧
     (0 < witInfoC3.child_index_window →
       ∀ i j : ℕ, i < j → j < witAsLayersC3.length →
       ((i : ℚ) + 1) *
           (witInfoC3.child_index_window /
             ((witAsLayersC3.length : ℚ) + 1)) + witInfoC3.zindex <
         ((j : ℚ) + 1) *
             (witInfoC3.child_index_window /
               ((witAsLayersC3.length : ℚ) + 1)) + witInfoC3.zindex)) :=
  ⟨rfl, rfl,
   C3_precomp_zindex witModelC3 (initState witModelC3) witInfoC3 ⟨"a"⟩ "a"
     witAsLayersC3 rfl rfl⟩

/-!
Claim C2: parent resolution.  The development below tracks, through the
queue loop, the correspondence between the per-composition parent maps, the
standby maps and the staged layers' `parent` fields.
-/

/-- Within one layer list, a declared `index` value is declared by at most
one layer. -/
abbrev indicesUnique (ls : List Layer) : Prop :=
  ∀ j, j < ls.length → ∀ i, i < j →
    ls[i]?.bind Layer.index = none ∨
    ls[i]?.bind Layer.index ≠ ls[j]?.bind Layer.index

/-- `indicesUnique` for the layer list of a precomposition asset. -/
def assetIndicesUnique : Asset → Prop
  | .precomposition _ ls => indicesUnique ls
  | .media _ => True

instance (a : Asset) : Decidable (assetIndicesUnique a) := by
  cases a with
  | precomposition i ls => exact inferInstanceAs (Decidable (indicesUnique ls))
  | media m => exact inferInstanceAs (Decidable True)

/-- The well-formedness under which parent resolution is deterministic:
layer indices are unique among the top-level layers and within every
precomposition asset. -/
abbrev ModelWF (model : Model) : Prop :=
  indicesUnique model.layers ∧ ∀ a ∈ model.assets, assetIndicesUnique a

/-- Queue entries `e1` and `e2` do not declare the same `index` within the
same composition. -/
def QDistinct (e1 e2 : LayerInfo) : Prop :=
  e1.comp = e2.comp → ∀ k : ℕ, e1.layer.index = some k → e2.layer.index ≠ some k

theorem pmFind_nil (k : ℕ) : pmFind [] k = none := rfl

theorem pmFind_cons (k v k2 : ℕ) (pm : List (ℕ × ℕ)) :
    pmFind ((k, v) :: pm) k2 = if k = k2 then some v else pmFind pm k2 := by
  by_cases h : k = k2
  · subst h
    rw [pmFind, List.find?_cons_of_pos _ (by simp), if_pos rfl]
    rfl
  · rw [pmFind, List.find?_cons_of_neg _ (by simpa using h), if_neg h]
    rfl

theorem getElem?_set_of_lt {α : Type} (l : List α) (i : ℕ) (a : α)
    (h : i < l.length) : (l.set i a)[i]? = some a := by
  simp [List.getElem?_set_self', List.getElem?_eq_getElem h]

theorem getD_of_getElem? {α : Type} (l : List α) (i : ℕ) (d a : α)
    (h : l[i]? = some a) : l.getD i d = a := by
  rw [List.getD_eq_getElem?_getD, h]
  rfl

theorem getElem?_append_left_of_lt {α : Type} (l l' : List α) (i : ℕ)
    (h : i < l.length) : (l ++ l')[i]? = l[i]? := by
  rw [List.getElem?_append, if_pos h]

theorem getElem?_append_self {α : Type} (l : List α) (a : α) :
    (l ++ [a])[l.length]? = some a := by
  rw [List.getElem?_append, if_neg (by omega)]
  simp

theorem mapsInsert_length (maps : List (List (ℕ × ℕ))) (c k v : ℕ) :
    (mapsInsert maps c k v).length = maps.length := by
  rw [mapsInsert, List.length_set]

theorem mapsInsert_getElem_self (maps : List (List (ℕ × ℕ))) (c k v : ℕ)
    (pm : List (ℕ × ℕ)) (hpm : maps[c]? = some pm) :
    (mapsInsert maps c k v)[c]? = some ((k, v) :: pm) := by
  have hc : c < maps.length := by
    by_contra hge
    rw [List.getElem?_eq_none (by omega)] at hpm
    exact Option.noConfusion hpm
  rw [mapsInsert, getD_of_getElem? _ _ _ _ hpm, getElem?_set_of_lt _ _ _ hc]

theorem mapsInsert_getElem_ne (maps : List (List (ℕ × ℕ))) (c k v c' : ℕ)
    (h : c ≠ c') : (mapsInsert maps c k v)[c']? = maps[c']? := by
  rw [mapsInsert, List.getElem?_set_ne h]

theorem sbPush_length (maps : List (List (ℕ × ℕ))) (c k id : ℕ) :
    (sbPush maps c k id).length = maps.length := by
  rw [sbPush, List.length_set]

theorem sbPush_getElem_self (maps : List (List (ℕ × ℕ))) (c k id : ℕ)
    (sb : List (ℕ × ℕ)) (hsb : maps[c]? = some sb) :
    (sbPush maps c k id)[c]? = some (sb ++ [(k, id)]) := by
  have hc : c < maps.length := by
    by_contra hge
    rw [List.getElem?_eq_none (by omega)] at hsb
    exact Option.noConfusion hsb
  rw [sbPush, getD_of_getElem? _ _ _ _ hsb, getElem?_set_of_lt _ _ _ hc]

theorem sbPush_getElem_ne (maps : List (List (ℕ × ℕ))) (c k id c' : ℕ)
    (h : c ≠ c') : (sbPush maps c k id)[c']? = maps[c']? := by
  rw [sbPush, List.getElem?_set_ne h]

theorem sbTake_fst (maps : List (List (ℕ × ℕ))) (c k : ℕ)
    (sb : List (ℕ × ℕ)) (hsb : maps[c]? = some sb) :
    (sbTake maps c k).1 = (sb.filter fun p => p.1 = k).map (fun p => p.2) := by
  rw [sbTake, getD_of_getElem? _ _ _ _ hsb]

theorem sbTake_snd_getElem_self (maps : List (List (ℕ × ℕ))) (c k : ℕ)
    (sb : List (ℕ × ℕ)) (hsb : maps[c]? = some sb) :
    (sbTake maps c k).2[c]? = some (sb.filter fun p => ¬p.1 = k) := by
  have hc : c < maps.length := by
    by_contra hge
    rw [List.getElem?_eq_none (by omega)] at hsb
    exact Option.noConfusion hsb
  rw [sbTake, getD_of_getElem? _ _ _ _ hsb, getElem?_set_of_lt _ _ _ hc]

theorem sbTake_snd_getElem_ne (maps : List (List (ℕ × ℕ))) (c k c' : ℕ)
    (h : c ≠ c') : (sbTake maps c k).2[c']? = maps[c']? := by
  rw [sbTake, List.getElem?_set_ne h]

theorem sbTake_snd_length (maps : List (List (ℕ × ℕ))) (c k : ℕ) :
    (sbTake maps c k).2.length = maps.length := by
  rw [sbTake, List.length_set]

theorem foldl_set_length (ids : List ℕ) (v : Option ℕ) :
    ∀ ps : List (Option ℕ),
      (ids.foldl (fun l cid => l.set cid v) ps).length = ps.length := by
  induction ids with
  | nil => intro ps; rfl
  | cons a rest ih =>
    intro ps
    rw [List.foldl_cons, ih, List.length_set]

theorem foldl_set_not_mem (ids : List ℕ) (v : Option ℕ) :
    ∀ (ps : List (Option ℕ)) (i : ℕ), i ∉ ids →
      (ids.foldl (fun l cid => l.set cid v) ps)[i]? = ps[i]? := by
  induction ids with
  | nil => intro ps i h; rfl
  | cons a rest ih =>
    intro ps i h
    have hne : a ≠ i := fun he => h (he ▸ List.mem_cons_self a rest)
    rw [List.foldl_cons, ih _ _ (fun hm => h (List.mem_cons_of_mem a hm)),
      List.getElem?_set_ne hne]

theorem foldl_set_mem (ids : List ℕ) (v : Option ℕ) :
    ∀ (ps : List (Option ℕ)) (i : ℕ), i ∈ ids → i < ps.length →
      (ids.foldl (fun l cid => l.set cid v) ps)[i]? = some v := by
  induction ids with
  | nil => intro ps i h; exact absurd h (List.not_mem_nil i)
  | cons a rest ih =>
    intro ps i h hlen
    by_cases hr : i ∈ rest
    · rw [List.foldl_cons]
      exact ih _ _ hr (by simpa using hlen)
    · have hia : i = a := by
        rcases List.mem_cons.mp h with h1 | h2
        · exact h1
        · exact absurd h2 hr
      subst hia
      rw [List.foldl_cons, foldl_set_not_mem rest v _ _ hr,
        getElem?_set_of_lt _ _ _ (by simpa using hlen)]

/-- `resolvedStore` on the parent-field projection of the store. -/
def resolvedParents (ps : List (Option ℕ)) (pm : List (ℕ × ℕ)) (id : ℕ)
    (parent_index : Option ℕ) : List (Option ℕ) :=
  match parent_index with
  | some pidx =>
    match pmFind pm pidx with
    | some p => ps.set id (some p)
    | none => ps
  | none => ps

/-- `handedStore` on the parent-field projection of the store. -/
def handedParents (ps : List (Option ℕ)) (sb : List (List (ℕ × ℕ)))
    (comp : ℕ) (id : ℕ) (index : Option ℕ) : List (Option ℕ) :=
  match index with
  | some ind =>
    ((sbTake sb comp ind).1).foldl (fun l cid => l.set cid (some id)) ps
  | none => ps

theorem map_parent_setParent (store : List StagedLayer) (id : ℕ)
    (p : Option ℕ) :
    (setParent store id p).map StagedLayer.parent =
      (store.map StagedLayer.parent).set id p := by
  rw [setParent]
  cases hl : store[id]? with
  | none =>
    have hge : store.length ≤ id := by
      by_contra hlt
      rw [List.getElem?_eq_getElem (by omega)] at hl
      exact Option.noConfusion hl
    rw [List.set_eq_of_length_le (by simpa using hge)]
  | some l => rw [List.map_set]

theorem map_parent_resolvedStore (store : List StagedLayer)
    (pm : List (ℕ × ℕ)) (id : ℕ) (pi : Option ℕ) :
    (resolvedStore store pm id pi).map StagedLayer.parent =
      resolvedParents (store.map StagedLayer.parent) pm id pi := by
  rcases pi with _ | pidx
  · rfl
  · rcases hfind : pmFind pm pidx with _ | p <;>
      simp only [resolvedStore, resolvedParents, hfind]
    exact map_parent_setParent store id (some p)

theorem map_parent_foldl_setParent (ids : List ℕ) (v : ℕ) :
    ∀ store : List StagedLayer,
      (ids.foldl (fun st cid => setParent st cid (some v)) store).map
          StagedLayer.parent =
        ids.foldl (fun l cid => l.set cid (some v))
          (store.map StagedLayer.parent) := by
  induction ids with
  | nil => intro store; rfl
  | cons a rest ih =>
    intro store
    rw [List.foldl_cons, List.foldl_cons, ih, map_parent_setParent]

theorem map_parent_handedStore (store : List StagedLayer)
    (sb : List (List (ℕ × ℕ))) (comp id : ℕ) (index : Option ℕ) :
    (handedStore store sb comp id index).map StagedLayer.parent =
      handedParents (store.map StagedLayer.parent) sb comp id index := by
  rcases index with _ | ind
  · rfl
  · simp only [handedStore, handedParents]
    exact map_parent_foldl_setParent _ _ store

theorem matteStore_length (s : BuildState) (matte : Option MatteMode) :
    (matteStore s matte).length = s.timeline.store.length := by
  rcases hp : s.previous with _ | pid <;> rcases hm : matte with _ | mode <;>
    simp only [matteStore, hp, hm] <;>
    first
      | rfl
      | exact setIsMask_length _ _

theorem matteStaged_parent (s : BuildState) (matte : Option MatteMode)
    (x : StagedLayer) : (matteStaged s matte x).parent = x.parent := by
  rcases hp : s.previous with _ | pid <;> rcases hm : matte with _ | mode <;>
    simp only [matteStaged, hp, hm]

theorem stageLayer_queue (model : Model) (s : BuildState) (info : LayerInfo)
    (children : List LayerInfo) :
    (stageLayer model s info children).queue =
      s.queue ++ children.map fun c =>
        { c with parent := some s.timeline.store.length } := by
  simp only [stageLayer, Timeline.add_item, matteStore_length]

theorem stageLayer_meta (model : Model) (s : BuildState) (info : LayerInfo)
    (children : List LayerInfo) :
    (stageLayer model s info children).meta =
      s.meta ++ [⟨info.comp, info.layer.index, info.layer.parent_index⟩] := rfl

theorem stageLayer_parentMaps (model : Model) (s : BuildState)
    (info : LayerInfo) (children : List LayerInfo) :
    (stageLayer model s info children).parentMaps =
      registeredMaps s.parentMaps info.comp info.layer.index
        s.timeline.store.length := by
  simp only [stageLayer, Timeline.add_item, matteStore_length]

theorem stageLayer_standbyMaps (model : Model) (s : BuildState)
    (info : LayerInfo) (children : List LayerInfo) :
    (stageLayer model s info children).standbyMaps =
      handedStandby
        (resolvedStandby s.standbyMaps info.comp
          ((registeredMaps s.parentMaps info.comp info.layer.index
              s.timeline.store.length).getD info.comp [])
          s.timeline.store.length info.layer.parent_index)
        info.comp info.layer.index := by
  simp only [stageLayer, Timeline.add_item, matteStore_length]

theorem resolvedStore_length (store : List StagedLayer)
    (pm : List (ℕ × ℕ)) (id : ℕ) (pi : Option ℕ) :
    (resolvedStore store pm id pi).length = store.length := by
  rcases pi with _ | pidx
  · rfl
  · rcases hfind : pmFind pm pidx with _ | p <;>
      simp only [resolvedStore, hfind]
    exact setParent_length _ _ _

theorem foldl_setParent_length (ids : List ℕ) (v : Option ℕ) :
    ∀ store : List StagedLayer,
      (ids.foldl (fun st cid => setParent st cid v) store).length =
        store.length := by
  induction ids with
  | nil => intro store; rfl
  | cons a rest ih =>
    intro store
    rw [List.foldl_cons, ih, setParent_length]

theorem handedStore_length (store : List StagedLayer)
    (sb : List (List (ℕ × ℕ))) (comp id : ℕ) (index : Option ℕ) :
    (handedStore store sb comp id index).length = store.length := by
  rcases index with _ | ind
  · rfl
  · simp only [handedStore]
    exact foldl_setParent_length _ _ store

theorem stageLayer_store_length (model : Model) (s : BuildState)
    (info : LayerInfo) (children : List LayerInfo) :
    (stageLayer model s info children).timeline.store.length =
      s.timeline.store.length + 1 := by
  simp only [stageLayer, Timeline.add_item]
  rw [handedStore_length, resolvedStore_length, List.length_append,
    matteStore_length]
  rfl

theorem stageLayer_parents (model : Model) (s : BuildState) (info : LayerInfo)
    (children : List LayerInfo) :
    (stageLayer model s info children).timeline.store.map StagedLayer.parent =
      handedParents
        (resolvedParents
          (s.timeline.store.map StagedLayer.parent ++ [info.parent])
          ((registeredMaps s.parentMaps info.comp info.layer.index
              s.timeline.store.length).getD info.comp [])
          s.timeline.store.length info.layer.parent_index)
        (resolvedStandby s.standbyMaps info.comp
          ((registeredMaps s.parentMaps info.comp info.layer.index
              s.timeline.store.length).getD info.comp [])
          s.timeline.store.length info.layer.parent_index)
        info.comp s.timeline.store.length info.layer.index := by
  simp only [stageLayer, Timeline.add_item, matteStore_length]
  rw [map_parent_handedStore, map_parent_resolvedStore, List.map_append,
    map_proj_matteStore StagedLayer.parent s info.layer.matte_mode
      (fun l => rfl)]
  simp only [List.map_cons, List.map_nil]
  rw [matteStaged_parent]

theorem pairwise_enum_of_indicesUnique (ls : List Layer)
    (h : indicesUnique ls) :
    ls.enum.Pairwise fun p q =>
      ∀ k : ℕ, p.2.index = some k → q.2.index ≠ some k := by
  rw [List.pairwise_iff_getElem]
  intro i j hi hj hij k hpi hqj
  have hi' : i < ls.length := by simpa using hi
  have hj' : j < ls.length := by simpa using hj
  rw [List.getElem_enum] at hpi hqj
  have hbi : ls[i]?.bind Layer.index = some k := by
    rw [List.getElem?_eq_getElem hi']
    exact hpi
  have hbj : ls[j]?.bind Layer.index = some k := by
    rw [List.getElem?_eq_getElem hj']
    exact hqj
  rcases h j hj' i hij with h1 | h2
  · rw [hbi] at h1
    exact Option.noConfusion h1
  · exact h2 (hbi.trans hbj.symm)

/-- The parent-resolution invariant of the queue loop: the ghost `meta` list
is parallel to the store; every composition named by a queue entry or a meta
entry has its map pair; a registered `index` is found in its composition's
parent map at exactly the position of the layer that declared it; queue
entries' indices are not yet registered, and no two queue entries of one
composition declare the same index; standby entries record exactly the
staged layers whose `parent_index` does not resolve yet; and a staged
layer's `parent_index` is either resolved in its `parent` field or parked in
its composition's standby map. -/
structure ParentInv (s : BuildState) : Prop where
  lenMeta : s.meta.length = s.timeline.store.length
  lenMaps : s.standbyMaps.length = s.parentMaps.length
  metaComp : ∀ (i : ℕ) (m : LayerMeta), s.meta[i]? = some m →
    m.comp < s.parentMaps.length
  queueComp : ∀ e ∈ s.queue, e.comp < s.parentMaps.length
  regComplete : ∀ (j : ℕ) (m : LayerMeta) (k : ℕ), s.meta[j]? = some m →
    m.index = some k →
    ∀ pm, s.parentMaps[m.comp]? = some pm → pmFind pm k = some j
  queueFresh : ∀ e ∈ s.queue, ∀ k : ℕ, e.layer.index = some k →
    ∀ pm, s.parentMaps[e.comp]? = some pm → pmFind pm k = none
  queuePairwise : s.queue.Pairwise QDistinct
  standbySound : ∀ (c : ℕ) (sb : List (ℕ × ℕ)), s.standbyMaps[c]? = some sb →
    ∀ p ∈ sb,
    ∃ m : LayerMeta, s.meta[p.2]? = some m ∧ m.comp = c ∧
      m.parent_index = some p.1
  standbyFresh : ∀ (c : ℕ) (sb : List (ℕ × ℕ)), s.standbyMaps[c]? = some sb →
    ∀ p ∈ sb,
    ∀ pm, s.parentMaps[c]? = some pm → pmFind pm p.1 = none
  resolveSome : ∀ (i : ℕ) (m : LayerMeta) (k : ℕ), s.meta[i]? = some m →
    m.parent_index = some k →
    ∀ pm, s.parentMaps[m.comp]? = some pm → ∀ j : ℕ, pmFind pm k = some j →
    (s.timeline.store.map StagedLayer.parent)[i]? = some (some j)
  resolveNone : ∀ (i : ℕ) (m : LayerMeta) (k : ℕ), s.meta[i]? = some m →
    m.parent_index = some k →
    ∀ pm, s.parentMaps[m.comp]? = some pm → pmFind pm k = none →
    ∃ sb, s.standbyMaps[m.comp]? = some sb ∧ (k, i) ∈ sb

theorem parentInv_init (model : Model) (hwf : ModelWF model) :
    ParentInv (initState model) := by
  constructor
  · rfl
  · rfl
  · intro i m h
    exact absurd h (by simp [initState])
  · intro e he
    simp only [initState, List.mem_map] at he
    obtain ⟨pr, hpr, rfl⟩ := he
    show 0 < 1
    omega
  · intro j m k hj
    exact absurd hj (by simp [initState])
  · intro e he k hk pm hpm
    simp only [initState, List.mem_map] at he
    obtain ⟨pr, hpr, rfl⟩ := he
    simp only [initState] at hpm
    have hpm0 : ([([] : List (ℕ × ℕ))] : List (List (ℕ × ℕ)))[0]? = some [] := rfl
    have : pm = [] := by
      have := hpm0.symm.trans hpm
      exact (Option.some.inj this).symm
    subst this
    rfl
  · show (initState model).queue.Pairwise QDistinct
    have hq : (initState model).queue = model.layers.enum.map fun pr =>
        ({ layer := pr.2, zindex := (pr.1 : ℚ), child_index_window := 1,
           target_ref := .layer pr.2.id, parent := none, comp := 0,
           time_remapping := pr.2.time_remapping } : LayerInfo) := rfl
    rw [hq, List.pairwise_map]
    exact (pairwise_enum_of_indicesUnique _ hwf.1).imp
      fun h => fun _ k hk => h k hk
  · intro c sb hsb p hp
    rcases c with _ | c
    · simp only [initState] at hsb
      have : sb = [] := by
        have h0 : ([([] : List (ℕ × ℕ))] : List (List (ℕ × ℕ)))[0]? = some [] := rfl
        exact (Option.some.inj (h0.symm.trans hsb)).symm
      subst this
      exact absurd hp (List.not_mem_nil p)
    · exact absurd hsb (by simp [initState])
  · intro c sb hsb p hp pm hpm
    rcases c with _ | c
    · simp only [initState] at hsb
      have : sb = [] := by
        have h0 : ([([] : List (ℕ × ℕ))] : List (List (ℕ × ℕ)))[0]? = some [] := rfl
        exact (Option.some.inj (h0.symm.trans hsb)).symm
      subst this
      exact absurd hp (List.not_mem_nil p)
    · exact absurd hsb (by simp [initState])
  · intro i m k hi
    exact absurd hi (by simp [initState])
  · intro i m k hi
    exact absurd hi (by simp [initState])

theorem registeredMaps_length (maps : List (List (ℕ × ℕ))) (comp : ℕ)
    (index : Option ℕ) (id : ℕ) :
    (registeredMaps maps comp index id).length = maps.length := by
  rcases index with _ | ind
  · rfl
  · exact mapsInsert_length _ _ _ _

theorem registeredMaps_getElem_ne (maps : List (List (ℕ × ℕ))) (comp : ℕ)
    (index : Option ℕ) (id : ℕ) (c : ℕ) (h : comp ≠ c) :
    (registeredMaps maps comp index id)[c]? = maps[c]? := by
  rcases index with _ | ind
  · rfl
  · exact mapsInsert_getElem_ne _ _ _ _ _ h

theorem resolvedStandby_length (sb : List (List (ℕ × ℕ))) (comp : ℕ)
    (pm : List (ℕ × ℕ)) (id : ℕ) (pi : Option ℕ) :
    (resolvedStandby sb comp pm id pi).length = sb.length := by
  rcases pi with _ | pidx
  · rfl
  · rcases hfp : pmFind pm pidx with _ | q <;>
      simp only [resolvedStandby, hfp]
    exact sbPush_length _ _ _ _

theorem resolvedStandby_getElem_ne (sb : List (List (ℕ × ℕ))) (comp : ℕ)
    (pm : List (ℕ × ℕ)) (id : ℕ) (pi : Option ℕ) (c : ℕ) (h : comp ≠ c) :
    (resolvedStandby sb comp pm id pi)[c]? = sb[c]? := by
  rcases pi with _ | pidx
  · rfl
  · rcases hfp : pmFind pm pidx with _ | q <;>
      simp only [resolvedStandby, hfp]
    exact sbPush_getElem_ne _ _ _ _ _ h

theorem handedStandby_length (sb : List (List (ℕ × ℕ))) (comp : ℕ)
    (index : Option ℕ) : (handedStandby sb comp index).length = sb.length := by
  rcases index with _ | ind
  · rfl
  · exact sbTake_snd_length _ _ _

theorem handedStandby_getElem_ne (sb : List (List (ℕ × ℕ))) (comp : ℕ)
    (index : Option ℕ) (c : ℕ) (h : comp ≠ c) :
    (handedStandby sb comp index)[c]? = sb[c]? := by
  rcases index with _ | ind
  · rfl
  · exact sbTake_snd_getElem_ne _ _ _ _ h

theorem resolvedParents_length (ps : List (Option ℕ)) (pm : List (ℕ × ℕ))
    (id : ℕ) (pi : Option ℕ) :
    (resolvedParents ps pm id pi).length = ps.length := by
  rcases pi with _ | pidx
  · rfl
  · rcases hfp : pmFind pm pidx with _ | q <;>
      simp only [resolvedParents, hfp]
    exact List.length_set ps id _

theorem sbTake_fst_mem (maps : List (List (ℕ × ℕ))) (c k : ℕ)
    (sb : List (ℕ × ℕ)) (hsb : maps[c]? = some sb) (i : ℕ) :
    i ∈ (sbTake maps c k).1 ↔ (k, i) ∈ sb := by
  rw [sbTake_fst _ _ _ _ hsb]
  constructor
  · intro h
    obtain ⟨p, hp, hpi⟩ := List.mem_map.mp h
    obtain ⟨hpsb, hpk⟩ := List.mem_filter.mp hp
    have hk : p.1 = k := by simpa using hpk
    have hpe : p = (k, i) := by
      obtain ⟨a, b⟩ := p
      simp only at hk hpi
      rw [hk, hpi]
    rw [← hpe]
    exact hpsb
  · intro h
    exact List.mem_map.mpr ⟨(k, i), List.mem_filter.mpr ⟨h, by simp⟩, rfl⟩

theorem getElem?_append_of_some {α : Type} (l l' : List α) (i : ℕ) (a : α)
    (h : l[i]? = some a) : (l ++ l')[i]? = some a := by
  have hi : i < l.length := by
    by_contra hge
    rw [List.getElem?_eq_none (by omega)] at h
    exact Option.noConfusion h
  rw [getElem?_append_left_of_lt _ _ _ hi, h]

theorem getElem?_append_singleton {α : Type} (l : List α) (a : α) (i : ℕ)
    (b : α) (h : (l ++ [a])[i]? = some b) :
    (i < l.length ∧ l[i]? = some b) ∨ (i = l.length ∧ b = a) := by
  by_cases hi : i < l.length
  · refine Or.inl ⟨hi, ?_⟩
    rw [getElem?_append_left_of_lt _ _ _ hi] at h
    exact h
  · right
    rw [List.getElem?_append, if_neg hi] at h
    rcases hj : i - l.length with _ | j
    · refine ⟨by omega, ?_⟩
      rw [hj] at h
      exact (Option.some.inj h).symm
    · rw [hj] at h
      exact absurd h (by simp)

theorem registered_self_spec (maps : List (List (ℕ × ℕ))) (comp : ℕ)
    (index : Option ℕ) (nid : ℕ) (pmc : List (ℕ × ℕ))
    (hpmc : maps[comp]? = some pmc) :
    ∃ pmc2, (registeredMaps maps comp index nid)[comp]? = some pmc2 ∧
      ∀ k2 : ℕ, pmFind pmc2 k2 =
        if index = some k2 then some nid else pmFind pmc k2 := by
  rcases index with _ | ind
  · refine ⟨pmc, hpmc, fun k2 => ?_⟩
    rw [if_neg (by simp)]
  · refine ⟨(ind, nid) :: pmc, ?_, fun k2 => ?_⟩
    · simp only [registeredMaps]
      exact mapsInsert_getElem_self _ _ _ _ _ hpmc
    · rw [pmFind_cons]
      by_cases h : ind = k2
      · subst h
        rw [if_pos rfl, if_pos rfl]
      · rw [if_neg h, if_neg (fun hc => h (Option.some.inj hc))]

theorem resolvedStandby_self_spec (sb : List (List (ℕ × ℕ))) (comp : ℕ)
    (pm : List (ℕ × ℕ)) (nid : ℕ) (pi : Option ℕ) (sbc : List (ℕ × ℕ))
    (hsbc : sb[comp]? = some sbc) :
    ∃ sbc2, (resolvedStandby sb comp pm nid pi)[comp]? = some sbc2 ∧
      ∀ p : ℕ × ℕ, p ∈ sbc2 ↔ p ∈ sbc ∨
        (pi = some p.1 ∧ pmFind pm p.1 = none ∧ p.2 = nid) := by
  rcases pi with _ | pidx
  · refine ⟨sbc, hsbc, fun p => ?_⟩
    simp
  · rcases hfp : pmFind pm pidx with _ | q
    · refine ⟨sbc ++ [(pidx, nid)], ?_, fun p => ?_⟩
      · simp only [resolvedStandby, hfp]
        exact sbPush_getElem_self _ _ _ _ _ hsbc
      · rw [List.mem_append, List.mem_singleton]
        constructor
        · rintro (h | h)
          · exact Or.inl h
          · subst h
            exact Or.inr ⟨rfl, hfp, rfl⟩
        · rintro (h | ⟨h1, h2, h3⟩)
          · exact Or.inl h
          · right
            obtain ⟨a, b⟩ := p
            simp only at h1 h2 h3
            rw [show a = pidx from (Option.some.inj h1).symm, h3]
    · refine ⟨sbc, ?_, fun p => ?_⟩
      · simp only [resolvedStandby, hfp]
        exact hsbc
      · constructor
        · exact Or.inl
        · rintro (h | ⟨h1, h2, h3⟩)
          · exact h
          · rw [← Option.some.inj h1] at h2
            rw [hfp] at h2
            exact Option.noConfusion h2

theorem handedStandby_self_spec (sb : List (List (ℕ × ℕ))) (comp : ℕ)
    (index : Option ℕ) (sbc2 : List (ℕ × ℕ)) (hsbc2 : sb[comp]? = some sbc2) :
    ∃ sbc3, (handedStandby sb comp index)[comp]? = some sbc3 ∧
      ∀ p : ℕ × ℕ, p ∈ sbc3 ↔ p ∈ sbc2 ∧ index ≠ some p.1 := by
  rcases index with _ | ind
  · refine ⟨sbc2, hsbc2, fun p => ?_⟩
    simp
  · refine ⟨sbc2.filter fun p => ¬p.1 = ind, ?_, fun p => ?_⟩
    · simp only [handedStandby]
      exact sbTake_snd_getElem_self _ _ _ _ hsbc2
    · rw [List.mem_filter]
      constructor
      · rintro ⟨h1, h2⟩
        refine ⟨h1, fun hc => ?_⟩
        have hne : ¬p.1 = ind := by simpa using h2
        exact hne (Option.some.inj hc).symm
      · rintro ⟨h1, h2⟩
        refine ⟨h1, ?_⟩
        have hne : ¬p.1 = ind := fun hc => h2 (by rw [hc])
        simpa using hne

theorem handedParents_none (ps : List (Option ℕ)) (sb : List (List (ℕ × ℕ)))
    (comp nid : ℕ) : handedParents ps sb comp nid none = ps := rfl

theorem handedParents_some (ps : List (Option ℕ)) (sb : List (List (ℕ × ℕ)))
    (comp nid ind : ℕ) :
    handedParents ps sb comp nid (some ind) =
      ((sbTake sb comp ind).1).foldl (fun l cid => l.set cid (some nid)) ps :=
  rfl

theorem resolvedParents_noneIdx (ps : List (Option ℕ)) (pm : List (ℕ × ℕ))
    (nid : ℕ) : resolvedParents ps pm nid none = ps := rfl

theorem resolvedParents_resolved (ps : List (Option ℕ)) (pm : List (ℕ × ℕ))
    (nid pidx q : ℕ) (h : pmFind pm pidx = some q) :
    resolvedParents ps pm nid (some pidx) = ps.set nid (some q) := by
  simp only [resolvedParents, h]

theorem resolvedParents_unresolved (ps : List (Option ℕ)) (pm : List (ℕ × ℕ))
    (nid pidx : ℕ) (h : pmFind pm pidx = none) :
    resolvedParents ps pm nid (some pidx) = ps := by
  simp only [resolvedParents, h]

theorem parentInv_stageLayer (model : Model) (s : BuildState)
    (info : LayerInfo) (children : List LayerInfo)
    (hinv : ParentInv s)
    (hic : info.comp < s.parentMaps.length)
    (hifresh : ∀ k : ℕ, info.layer.index = some k →
      ∀ pm, s.parentMaps[info.comp]? = some pm → pmFind pm k = none)
    (hirest : ∀ e ∈ s.queue, QDistinct info e)
    (hchc : ∀ c ∈ children, c.comp < s.parentMaps.length)
    (hchf : ∀ c ∈ children, ∀ k : ℕ, c.layer.index = some k →
      ∀ pm, s.parentMaps[c.comp]? = some pm → pmFind pm k = none)
    (hchi : ∀ c ∈ children, QDistinct info c)
    (hchp : children.Pairwise QDistinct)
    (hchx : ∀ e ∈ s.queue, ∀ c ∈ children, QDistinct e c) :
    ParentInv (stageLayer model s info children) := by
  have hmetalen : s.meta.length = s.timeline.store.length := hinv.lenMeta
  obtain ⟨pmc, hpmc⟩ : ∃ pm, s.parentMaps[info.comp]? = some pm :=
    ⟨_, List.getElem?_eq_getElem hic⟩
  have hicsb : info.comp < s.standbyMaps.length := by
    rw [hinv.lenMaps]
    exact hic
  obtain ⟨sbc, hsbc⟩ : ∃ sb, s.standbyMaps[info.comp]? = some sb :=
    ⟨_, List.getElem?_eq_getElem hicsb⟩
  obtain ⟨pmc2, hpmc2, hpmfind⟩ := registered_self_spec s.parentMaps info.comp
    info.layer.index s.timeline.store.length pmc hpmc
  have hgetd : (registeredMaps s.parentMaps info.comp info.layer.index
      s.timeline.store.length).getD info.comp [] = pmc2 :=
    getD_of_getElem? _ _ _ _ hpmc2
  obtain ⟨sbc2, hsbc2, hsbc2mem⟩ := resolvedStandby_self_spec s.standbyMaps
    info.comp pmc2 s.timeline.store.length info.layer.parent_index sbc hsbc
  obtain ⟨sbc3, hsbc3, hsbc3mem⟩ := handedStandby_self_spec _ info.comp
    info.layer.index sbc2 hsbc2
  have hqe := stageLayer_queue model s info children
  have hme := stageLayer_meta model s info children
  have hpme := stageLayer_parentMaps model s info children
  have hsbe := stageLayer_standbyMaps model s info children
  have hpre := stageLayer_parents model s info children
  rw [hgetd] at hsbe hpre
  have hnid_not_mem : ∀ ind : ℕ, info.layer.index = some ind →
      (ind, s.timeline.store.length) ∉ sbc2 := by
    intro ind hind hmem
    rcases (hsbc2mem _).mp hmem with h | ⟨h1, h2, h3⟩
    · obtain ⟨m, hm, _, _⟩ := hinv.standbySound info.comp sbc hsbc _ h
      have hm' : s.meta[s.timeline.store.length]? = some m := hm
      have hlt : s.timeline.store.length < s.meta.length := by
        by_contra hge
        rw [List.getElem?_eq_none (by omega)] at hm'
        exact Option.noConfusion hm'
      omega
    · have h2' : pmFind pmc2 ind = none := h2
      rw [hpmfind ind, if_pos hind] at h2'
      exact Option.noConfusion h2'
  refine ⟨?_, ?_, ?_, ?_, ?_, ?_, ?_, ?_, ?_, ?_, ?_⟩
  · rw [hme, stageLayer_store_length, List.length_append, hmetalen]
    rfl
  · rw [hsbe, hpme, handedStandby_length, resolvedStandby_length,
      registeredMaps_length, hinv.lenMaps]
  · intro i m h
    rw [hme] at h
    rw [hpme, registeredMaps_length]
    rcases getElem?_append_singleton _ _ _ _ h with ⟨hi, hold⟩ | ⟨hi, hnew⟩
    · exact hinv.metaComp i m hold
    · rw [hnew]
      exact hic
  · intro e he
    rw [hqe] at he
    rw [hpme, registeredMaps_length]
    rcases List.mem_append.mp he with h | h
    · exact hinv.queueComp e h
    · obtain ⟨c, hc, rfl⟩ := List.mem_map.mp h
      exact hchc c hc
  · intro j m k hj hk pm hpm
    rw [hme] at hj
    rw [hpme] at hpm
    rcases getElem?_append_singleton _ _ _ _ hj with ⟨hjlt, hold⟩ | ⟨hje, hnew⟩
    · by_cases hcc : info.comp = m.comp
      · rw [← hcc, hpmc2] at hpm
        obtain rfl := Option.some.inj hpm
        rw [hpmfind k]
        have hfk : pmFind pmc k = some j :=
          hinv.regComplete j m k hold hk pmc (by rw [← hcc]; exact hpmc)
        rcases hind2 : info.layer.index with _ | ind
        · rw [if_neg (by simp)]
          exact hfk
        · by_cases hik : ind = k
          · exfalso
            have hn : pmFind pmc k = none := by
              refine hifresh k ?_ pmc hpmc
              rw [hind2, hik]
            rw [hn] at hfk
            exact Option.noConfusion hfk
          · rw [if_neg (fun hc => hik (Option.some.inj hc))]
            exact hfk
      · rw [registeredMaps_getElem_ne _ _ _ _ _ hcc] at hpm
        exact hinv.regComplete j m k hold hk pm hpm
    · have hmc : m.comp = info.comp := by rw [hnew]
      rw [hmc, hpmc2] at hpm
      obtain rfl := Option.some.inj hpm
      have hik : info.layer.index = some k := by
        rw [hnew] at hk
        exact hk
      rw [hpmfind k, if_pos hik, hje, hmetalen]
  · intro e he k hk pm hpm
    rw [hqe] at he
    rw [hpme] at hpm
    rcases List.mem_append.mp he with hrest | hch
    · by_cases hcc : info.comp = e.comp
      · rw [← hcc, hpmc2] at hpm
        obtain rfl := Option.some.inj hpm
        rw [hpmfind k]
        rcases hind2 : info.layer.index with _ | ind
        · rw [if_neg (by simp)]
          exact hinv.queueFresh e hrest k hk pmc (by rw [← hcc]; exact hpmc)
        · by_cases hik : ind = k
          · exfalso
            subst hik
            exact (hirest e hrest) hcc ind hind2 hk
          · rw [if_neg (fun hc => hik (Option.some.inj hc))]
            exact hinv.queueFresh e hrest k hk pmc (by rw [← hcc]; exact hpmc)
      · rw [registeredMaps_getElem_ne _ _ _ _ _ hcc] at hpm
        exact hinv.queueFresh e hrest k hk pm hpm
    · obtain ⟨c, hc, rfl⟩ := List.mem_map.mp hch
      have hk' : c.layer.index = some k := hk
      have hpm' : (registeredMaps s.parentMaps info.comp info.layer.index
          s.timeline.store.length)[c.comp]? = some pm := hpm
      by_cases hcc : info.comp = c.comp
      · rw [← hcc, hpmc2] at hpm'
        obtain rfl := Option.some.inj hpm'
        rw [hpmfind k]
        rcases hind2 : info.layer.index with _ | ind
        · rw [if_neg (by simp)]
          exact hchf c hc k hk' pmc (by rw [← hcc]; exact hpmc)
        · by_cases hik : ind = k
          · exfalso
            subst hik
            exact (hchi c hc) hcc ind hind2 hk'
          · rw [if_neg (fun hc2 => hik (Option.some.inj hc2))]
            exact hchf c hc k hk' pmc (by rw [← hcc]; exact hpmc)
      · rw [registeredMaps_getElem_ne _ _ _ _ _ hcc] at hpm'
        exact hchf c hc k hk' pm hpm'
  · rw [hqe, List.pairwise_append]
    refine ⟨hinv.queuePairwise, ?_, ?_⟩
    · rw [List.pairwise_map]
      exact hchp.imp fun h => h
    · intro e he c hcm
      obtain ⟨c0, hc0, rfl⟩ := List.mem_map.mp hcm
      exact hchx e he c0 hc0
  · intro c sb hsb p hp
    rw [hsbe] at hsb
    rw [hme]
    by_cases hcc : info.comp = c
    · subst hcc
      rw [hsbc3] at hsb
      obtain rfl := Option.some.inj hsb
      rcases (hsbc3mem p).mp hp with ⟨hp2, hpind⟩
      rcases (hsbc2mem p).mp hp2 with hold | ⟨h1, h2, h3⟩
      · obtain ⟨m, hm, hmc, hmp⟩ := hinv.standbySound info.comp sbc hsbc p hold
        exact ⟨m, getElem?_append_of_some _ _ _ _ hm, hmc, hmp⟩
      · refine ⟨⟨info.comp, info.layer.index, info.layer.parent_index⟩,
          ?_, rfl, h1⟩
        rw [h3, ← hmetalen]
        exact getElem?_append_self _ _
    · rw [handedStandby_getElem_ne _ _ _ _ hcc,
        resolvedStandby_getElem_ne _ _ _ _ _ _ hcc] at hsb
      obtain ⟨m, hm, hmc, hmp⟩ := hinv.standbySound c sb hsb p hp
      exact ⟨m, getElem?_append_of_some _ _ _ _ hm, hmc, hmp⟩
  · intro c sb hsb p hp pm hpm
    rw [hsbe] at hsb
    rw [hpme] at hpm
    by_cases hcc : info.comp = c
    · subst hcc
      rw [hsbc3] at hsb
      obtain rfl := Option.some.inj hsb
      rw [hpmc2] at hpm
      obtain rfl := Option.some.inj hpm
      rcases (hsbc3mem p).mp hp with ⟨hp2, hpind⟩
      rw [hpmfind p.1, if_neg hpind]
      rcases (hsbc2mem p).mp hp2 with hold | ⟨h1, h2, h3⟩
      · exact hinv.standbyFresh info.comp sbc hsbc p hold pmc hpmc
      · rw [hpmfind p.1, if_neg hpind] at h2
        exact h2
    · rw [handedStandby_getElem_ne _ _ _ _ hcc,
        resolvedStandby_getElem_ne _ _ _ _ _ _ hcc] at hsb
      rw [registeredMaps_getElem_ne _ _ _ _ _ hcc] at hpm
      exact hinv.standbyFresh c sb hsb p hp pm hpm
  · intro i m k hi hm pm hpm j hj
    rw [hme] at hi
    rw [hpme] at hpm
    rw [hpre]
    rcases getElem?_append_singleton _ _ _ _ hi with ⟨hilt, hold⟩ | ⟨hie, hnew⟩
    · have hilt' : i < s.timeline.store.length := by omega
      have hres_i : (resolvedParents (s.timeline.store.map StagedLayer.parent ++
          [info.parent]) pmc2 s.timeline.store.length
          info.layer.parent_index)[i]? =
          (s.timeline.store.map StagedLayer.parent)[i]? := by
        have hne : s.timeline.store.length ≠ i := by omega
        have hbase : (s.timeline.store.map StagedLayer.parent ++
            [info.parent])[i]? =
            (s.timeline.store.map StagedLayer.parent)[i]? :=
          getElem?_append_left_of_lt _ _ _
            (by rw [List.length_map]; exact hilt')
        rcases hpi2 : info.layer.parent_index with _ | pidx
        · exact hbase
        · rcases hfp2 : pmFind pmc2 pidx with _ | q
          · rw [resolvedParents_unresolved _ _ _ _ hfp2]
            exact hbase
          · rw [resolvedParents_resolved _ _ _ _ _ hfp2,
              List.getElem?_set_ne hne]
            exact hbase
      have hnot_taken : ∀ ind : ℕ,
          (m.parent_index ≠ some ind ∨ m.comp ≠ info.comp) →
          i ∉ (sbTake (resolvedStandby s.standbyMaps info.comp pmc2
              s.timeline.store.length info.layer.parent_index)
              info.comp ind).1 := by
        intro ind hcond htk
        have hin2 : (ind, i) ∈ sbc2 :=
          (sbTake_fst_mem _ _ _ _ hsbc2 i).mp htk
        rcases (hsbc2mem _).mp hin2 with holds | ⟨h1, h2, h3⟩
        · obtain ⟨m2, hm2, hm2c, hm2p⟩ :=
            hinv.standbySound info.comp sbc hsbc _ holds
          have hm2' : s.meta[i]? = some m2 := hm2
          rw [hold] at hm2'
          obtain rfl := Option.some.inj hm2'
          have hm2p' : m.parent_index = some ind := hm2p
          rcases hcond with hc1 | hc2
          · exact hc1 hm2p'
          · exact hc2 hm2c
        · have h3' : i = s.timeline.store.length := h3
          omega
      by_cases hcc : info.comp = m.comp
      · rw [← hcc, hpmc2] at hpm
        obtain rfl := Option.some.inj hpm
        rcases hind2 : info.layer.index with _ | ind
        · rw [hpmfind k, if_neg (by rw [hind2]; simp)] at hj
          have hPold := hinv.resolveSome i m k hold hm pmc
            (by rw [← hcc]; exact hpmc) j hj
          rw [handedParents_none, hres_i]
          exact hPold
        · by_cases hik : ind = k
          · subst hik
            rw [hpmfind ind, if_pos hind2] at hj
            obtain rfl := Option.some.inj hj
            have hn : pmFind pmc ind = none := hifresh ind hind2 pmc hpmc
            obtain ⟨sbm, hsbm, hkin⟩ := hinv.resolveNone i m ind hold hm pmc
              (by rw [← hcc]; exact hpmc) hn
            rw [← hcc, hsbc] at hsbm
            obtain rfl := Option.some.inj hsbm
            have hin2 : (ind, i) ∈ sbc2 := (hsbc2mem _).mpr (Or.inl hkin)
            have htk : i ∈ (sbTake (resolvedStandby s.standbyMaps info.comp
                pmc2 s.timeline.store.length info.layer.parent_index)
                info.comp ind).1 :=
              (sbTake_fst_mem _ _ _ _ hsbc2 i).mpr hin2
            rw [handedParents_some]
            refine foldl_set_mem _ _ _ _ htk ?_
            rw [resolvedParents_length, List.length_append, List.length_map]
            omega
          · rw [hpmfind k, if_neg (by
              rw [hind2]
              exact fun hc => hik (Option.some.inj hc))] at hj
            have hPold := hinv.resolveSome i m k hold hm pmc
              (by rw [← hcc]; exact hpmc) j hj
            rw [handedParents_some]
            rw [foldl_set_not_mem _ _ _ _ (hnot_taken ind (Or.inl (by
              rw [hm]
              exact fun hc => hik (Option.some.inj hc).symm)))]
            rw [hres_i]
            exact hPold
      · rw [registeredMaps_getElem_ne _ _ _ _ _ hcc] at hpm
        have hPold := hinv.resolveSome i m k hold hm pm hpm j hj
        rcases hind2 : info.layer.index with _ | ind
        · rw [handedParents_none, hres_i]
          exact hPold
        · rw [handedParents_some]
          rw [foldl_set_not_mem _ _ _ _
            (hnot_taken ind (Or.inr (fun hc => hcc hc.symm)))]
          rw [hres_i]
          exact hPold
    · have hmc : m.comp = info.comp := by rw [hnew]
      rw [hmc, hpmc2] at hpm
      obtain rfl := Option.some.inj hpm
      have hmpi : info.layer.parent_index = some k := by
        rw [hnew] at hm
        exact hm
      have hie' : i = s.timeline.store.length := by rw [hie, hmetalen]
      subst hie'
      have hlen1 : s.timeline.store.length <
          (s.timeline.store.map StagedLayer.parent ++ [info.parent]).length := by
        rw [List.length_append, List.length_map]
        simp
      rw [hmpi, resolvedParents_resolved _ _ _ _ _ hj]
      rcases hind2 : info.layer.index with _ | ind
      · rw [handedParents_none]
        exact getElem?_set_of_lt _ _ _ hlen1
      · rw [handedParents_some]
        have hsbc2x : (resolvedStandby s.standbyMaps info.comp pmc2
            s.timeline.store.length (some k))[info.comp]? = some sbc2 := by
          rw [← hmpi]
          exact hsbc2
        have hnotnid : s.timeline.store.length ∉
            (sbTake (resolvedStandby s.standbyMaps info.comp pmc2
              s.timeline.store.length (some k)) info.comp ind).1 := by
          intro htk
          exact hnid_not_mem ind hind2
            ((sbTake_fst_mem _ _ _ _ hsbc2x s.timeline.store.length).mp htk)
        rw [foldl_set_not_mem _ _ _ _ hnotnid]
        exact getElem?_set_of_lt _ _ _ hlen1
  · intro i m k hi hm pm hpm hnone
    rw [hme] at hi
    rw [hpme] at hpm
    rw [hsbe]
    rcases getElem?_append_singleton _ _ _ _ hi with ⟨hilt, hold⟩ | ⟨hie, hnew⟩
    · by_cases hcc : info.comp = m.comp
      · rw [← hcc, hpmc2] at hpm
        obtain rfl := Option.some.inj hpm
        have hito : info.layer.index ≠ some k := by
          intro hik
          rw [hpmfind k, if_pos hik] at hnone
          exact Option.noConfusion hnone
        have hnone' : pmFind pmc k = none := by
          rw [hpmfind k, if_neg hito] at hnone
          exact hnone
        obtain ⟨sbm, hsbm, hkin⟩ := hinv.resolveNone i m k hold hm pmc
          (by rw [← hcc]; exact hpmc) hnone'
        rw [← hcc, hsbc] at hsbm
        obtain rfl := Option.some.inj hsbm
        refine ⟨sbc3, ?_, ?_⟩
        · rw [← hcc]
          exact hsbc3
        · exact (hsbc3mem _).mpr ⟨(hsbc2mem _).mpr (Or.inl hkin), hito⟩
      · rw [registeredMaps_getElem_ne _ _ _ _ _ hcc] at hpm
        obtain ⟨sbm, hsbm, hkin⟩ := hinv.resolveNone i m k hold hm pm hpm hnone
        refine ⟨sbm, ?_, hkin⟩
        rw [handedStandby_getElem_ne _ _ _ _ hcc,
          resolvedStandby_getElem_ne _ _ _ _ _ _ hcc]
        exact hsbm
    · have hmc : m.comp = info.comp := by rw [hnew]
      rw [hmc, hpmc2] at hpm
      obtain rfl := Option.some.inj hpm
      have hmpi : info.layer.parent_index = some k := by
        rw [hnew] at hm
        exact hm
      have hito : info.layer.index ≠ some k := by
        intro hik
        rw [hpmfind k, if_pos hik] at hnone
        exact Option.noConfusion hnone
      refine ⟨sbc3, ?_, ?_⟩
      · rw [hmc]
        exact hsbc3
      · refine (hsbc3mem _).mpr ⟨(hsbc2mem _).mpr (Or.inr ⟨hmpi, hnone, ?_⟩),
          hito⟩
        show i = s.timeline.store.length
        rw [hie, hmetalen]

theorem parentInv_extend (s : BuildState) (hinv : ParentInv s) :
    ParentInv { s with parentMaps := s.parentMaps ++ [[]],
                       standbyMaps := s.standbyMaps ++ [[]] } := by
  refine ⟨hinv.lenMeta, ?_, ?_, ?_, ?_, ?_, hinv.queuePairwise, ?_, ?_, ?_, ?_⟩
  · show (s.standbyMaps ++ [[]]).length = (s.parentMaps ++ [[]]).length
    rw [List.length_append, List.length_append, hinv.lenMaps]
  · intro i m h
    have := hinv.metaComp i m h
    show m.comp < (s.parentMaps ++ [[]]).length
    rw [List.length_append]
    omega
  · intro e he
    have := hinv.queueComp e he
    show e.comp < (s.parentMaps ++ [[]]).length
    rw [List.length_append]
    omega
  · intro j m k hj hk pm hpm
    have hc := hinv.metaComp j m hj
    have hpm' : (s.parentMaps ++ [[]])[m.comp]? = some pm := hpm
    rw [getElem?_append_left_of_lt _ _ _ hc] at hpm'
    exact hinv.regComplete j m k hj hk pm hpm'
  · intro e he k hk pm hpm
    have hc := hinv.queueComp e he
    have hpm' : (s.parentMaps ++ [[]])[e.comp]? = some pm := hpm
    rw [getElem?_append_left_of_lt _ _ _ hc] at hpm'
    exact hinv.queueFresh e he k hk pm hpm'
  · intro c sb hsb p hp
    have hsb' : (s.standbyMaps ++ [[]])[c]? = some sb := hsb
    rcases getElem?_append_singleton _ _ _ _ hsb' with ⟨hlt, holds⟩ | ⟨hce, hnil⟩
    · exact hinv.standbySound c sb holds p hp
    · rw [hnil] at hp
      exact absurd hp (List.not_mem_nil p)
  · intro c sb hsb p hp pm hpm
    have hsb' : (s.standbyMaps ++ [[]])[c]? = some sb := hsb
    rcases getElem?_append_singleton _ _ _ _ hsb' with ⟨hlt, holds⟩ | ⟨hce, hnil⟩
    · have hc : c < s.parentMaps.length := by
        rw [← hinv.lenMaps]
        exact hlt
      have hpm' : (s.parentMaps ++ [[]])[c]? = some pm := hpm
      rw [getElem?_append_left_of_lt _ _ _ hc] at hpm'
      exact hinv.standbyFresh c sb holds p hp pm hpm'
    · rw [hnil] at hp
      exact absurd hp (List.not_mem_nil p)
  · intro i m k hi hm pm hpm j hj
    have hc := hinv.metaComp i m hi
    have hpm' : (s.parentMaps ++ [[]])[m.comp]? = some pm := hpm
    rw [getElem?_append_left_of_lt _ _ _ hc] at hpm'
    exact hinv.resolveSome i m k hi hm pm hpm' j hj
  · intro i m k hi hm pm hpm hnone
    have hc := hinv.metaComp i m hi
    have hpm' : (s.parentMaps ++ [[]])[m.comp]? = some pm := hpm
    rw [getElem?_append_left_of_lt _ _ _ hc] at hpm'
    obtain ⟨sb, hsb, hin⟩ := hinv.resolveNone i m k hi hm pm hpm' hnone
    refine ⟨sb, ?_, hin⟩
    show (s.standbyMaps ++ [[]])[m.comp]? = some sb
    exact getElem?_append_of_some _ _ _ _ hsb

theorem parentInv_processEntry (model : Model) (hwf : ModelWF model)
    (s : BuildState) (info : LayerInfo) (rest : List LayerInfo)
    (hq : s.queue = info :: rest) (hinv : ParentInv s) :
    ParentInv (processEntry model { s with queue := rest } info) := by
  have hself : info ∈ s.queue := by
    rw [hq]
    exact List.mem_cons_self info rest
  have hmem : ∀ e ∈ rest, e ∈ s.queue := by
    intro e he
    rw [hq]
    exact List.mem_cons_of_mem info he
  have hpw := hinv.queuePairwise
  rw [hq, List.pairwise_cons] at hpw
  have hpop : ParentInv { s with queue := rest } :=
    ⟨hinv.lenMeta, hinv.lenMaps, hinv.metaComp,
     fun e he => hinv.queueComp e (hmem e he),
     hinv.regComplete,
     fun e he => hinv.queueFresh e (hmem e he),
     hpw.2,
     hinv.standbySound, hinv.standbyFresh, hinv.resolveSome, hinv.resolveNone⟩
  have hic : info.comp < s.parentMaps.length := hinv.queueComp info hself
  have hifr := hinv.queueFresh info hself
  cases hc : info.layer.content with
  | preCompositionRef r =>
    rcases hfind : model.assets.find? fun a => a.id = r.ref_id with
        _ | ⟨aid, asLayers⟩ | mm <;>
      simp only [processEntry, hc, hfind]
    · exact hpop
    · have hiu : indicesUnique asLayers :=
        hwf.2 _ (List.mem_of_find?_eq_some hfind)
      refine parentInv_stageLayer model _ info _ (parentInv_extend _ hpop)
        ?_ ?_ ?_ ?_ ?_ ?_ ?_ ?_
      · show info.comp < (s.parentMaps ++ [[]]).length
        rw [List.length_append]
        omega
      · intro k hk pm hpm
        have hpm' : (s.parentMaps ++ [[]])[info.comp]? = some pm := hpm
        rw [getElem?_append_left_of_lt _ _ _ hic] at hpm'
        exact hifr k hk pm hpm'
      · intro e he
        exact hpw.1 e he
      · intro c hcm
        obtain ⟨pr, hpr, rfl⟩ := List.mem_map.mp hcm
        show s.parentMaps.length < (s.parentMaps ++ [[]]).length
        simp
      · intro c hcm k hk pm hpm
        obtain ⟨pr, hpr, rfl⟩ := List.mem_map.mp hcm
        have hpm' : (s.parentMaps ++ [[]])[s.parentMaps.length]? = some pm := hpm
        rw [getElem?_append_self] at hpm'
        obtain rfl := Option.some.inj hpm'
        rfl
      · intro c hcm
        obtain ⟨pr, hpr, rfl⟩ := List.mem_map.mp hcm
        intro hcc k hk
        exact absurd (show info.comp = s.parentMaps.length from hcc) (by omega)
      · rw [List.pairwise_map]
        exact (pairwise_enum_of_indicesUnique _ hiu).imp
          fun h => fun _ k hk => h k hk
      · intro e he c hcm
        obtain ⟨pr, hpr, rfl⟩ := List.mem_map.mp hcm
        intro hcc k hk
        have hec : e.comp < s.parentMaps.length := hinv.queueComp e (hmem e he)
        exact absurd (show e.comp = s.parentMaps.length from hcc) (by omega)
    · exact hpop
  | mediaRef r =>
    rcases hfind : model.assets.find? fun a => a.id = r.ref_id with
        _ | ⟨aid, asLayers⟩ | mm <;>
      simp only [processEntry, hc, hfind]
    · exact hpop
    · exact hpop
    · refine parentInv_stageLayer model _ info _ (parentInv_extend _ hpop)
        ?_ ?_ ?_ ?_ ?_ ?_ ?_ ?_
      · show info.comp < (s.parentMaps ++ [[]]).length
        rw [List.length_append]
        omega
      · intro k hk pm hpm
        have hpm' : (s.parentMaps ++ [[]])[info.comp]? = some pm := hpm
        rw [getElem?_append_left_of_lt _ _ _ hic] at hpm'
        exact hifr k hk pm hpm'
      · intro e he
        exact hpw.1 e he
      · intro c hcm
        rw [List.mem_singleton] at hcm
        subst hcm
        show s.parentMaps.length < (s.parentMaps ++ [[]]).length
        simp
      · intro c hcm k hk pm hpm
        rw [List.mem_singleton] at hcm
        subst hcm
        exact absurd (show (none : Option ℕ) = some k from hk) (by simp)
      · intro c hcm
        rw [List.mem_singleton] at hcm
        subst hcm
        intro hcc k hk
        exact absurd (show info.comp = s.parentMaps.length from hcc) (by omega)
      · exact List.pairwise_singleton _ _
      · intro e he c hcm
        rw [List.mem_singleton] at hcm
        subst hcm
        intro hcc k hk
        have hec : e.comp < s.parentMaps.length := hinv.queueComp e (hmem e he)
        exact absurd (show e.comp = s.parentMaps.length from hcc) (by omega)
  | solidColor cc w hh =>
    simp only [processEntry, hc]
    exact parentInv_stageLayer model _ info _ hpop hic hifr
      (fun e he => hpw.1 e he)
      (fun c hcm => absurd hcm (List.not_mem_nil c))
      (fun c hcm => absurd hcm (List.not_mem_nil c))
      (fun c hcm => absurd hcm (List.not_mem_nil c))
      List.Pairwise.nil
      (fun e he c hcm => absurd hcm (List.not_mem_nil c))
  | empty =>
    simp only [processEntry, hc]
    exact parentInv_stageLayer model _ info _ hpop hic hifr
      (fun e he => hpw.1 e he)
      (fun c hcm => absurd hcm (List.not_mem_nil c))
      (fun c hcm => absurd hcm (List.not_mem_nil c))
      (fun c hcm => absurd hcm (List.not_mem_nil c))
      List.Pairwise.nil
      (fun e he c hcm => absurd hcm (List.not_mem_nil c))
  | shape g =>
    simp only [processEntry, hc]
    exact parentInv_stageLayer model _ info _ hpop hic hifr
      (fun e he => hpw.1 e he)
      (fun c hcm => absurd hcm (List.not_mem_nil c))
      (fun c hcm => absurd hcm (List.not_mem_nil c))
      (fun c hcm => absurd hcm (List.not_mem_nil c))
      List.Pairwise.nil
      (fun e he c hcm => absurd hcm (List.not_mem_nil c))
  | text =>
    simp only [processEntry, hc]
    exact parentInv_stageLayer model _ info _ hpop hic hifr
      (fun e he => hpw.1 e he)
      (fun c hcm => absurd hcm (List.not_mem_nil c))
      (fun c hcm => absurd hcm (List.not_mem_nil c))
      (fun c hcm => absurd hcm (List.not_mem_nil c))
      List.Pairwise.nil
      (fun e he c hcm => absurd hcm (List.not_mem_nil c))
  | media mm =>
    simp only [processEntry, hc]
    exact parentInv_stageLayer model _ info _ hpop hic hifr
      (fun e he => hpw.1 e he)
      (fun c hcm => absurd hcm (List.not_mem_nil c))
      (fun c hcm => absurd hcm (List.not_mem_nil c))
      (fun c hcm => absurd hcm (List.not_mem_nil c))
      List.Pairwise.nil
      (fun e he c hcm => absurd hcm (List.not_mem_nil c))

theorem parentInv_runLoop (model : Model) (hwf : ModelWF model) :
    ∀ (fuel : ℕ) (s s' : BuildState), ParentInv s →
      runLoop model fuel s = some s' → ParentInv s' := by
  intro fuel
  induction fuel with
  | zero =>
    intro s s' h hr
    rw [runLoop] at hr
    split at hr
    · cases hr
      exact h
    · exact Option.noConfusion hr
  | succ fuel ih =>
    intro s s' h hr
    rw [runLoop] at hr
    split at hr
    · cases hr
      exact h
    · rename_i info rest heq
      exact ih _ _ (parentInv_processEntry model hwf s info rest heq h) hr

/-- Claim C2, amended: after `Timeline::new` completes on a document whose
layer indices are unique per composition, every staged layer whose source
layer declares `parent_index = k` and whose own composition contains a
sibling declaring `index = k` has its `parent` field set to that sibling's
staged id — including when the sibling is staged later than the referring
layer (the forward reference is resolved through the standby map).  The
claim's further sentence that no parent link ever crosses compositions is
false: expansion of a precomposition hands every spawned child a containment
`parent` link to the precomposition layer itself, which lives in the outer
composition (see the counterexample). -/
theorem C2_parent_resolution_amended (model : Model) (fuel : ℕ)
    (tl : Timeline) (meta : List LayerMeta)
    (hwf : ModelWF model)
    (hnew : Timeline.new model fuel = some (tl, meta))
    (i j k : ℕ) (mi mj : LayerMeta)
    (hmi : meta[i]? = some mi) (hmj : meta[j]? = some mj)
    (hpi : mi.parent_index = some k)
    (hcomp : mj.comp = mi.comp) (hidx : mj.index = some k) :
    (tl.store[i]?).map StagedLayer.parent = some (some j) := by
  rw [Timeline.new] at hnew
  rcases hrun : runLoop model fuel (initState model) with _ | s'
  · rw [hrun] at hnew
    exact Option.noConfusion hnew
  · rw [hrun] at hnew
    have hpair : (build_mask_hierarchy (build_frame_hierarchy
        (build_opacity_hierarchy s'.timeline)), s'.meta) = (tl, meta) :=
      Option.some.inj hnew
    have htl : tl = build_mask_hierarchy (build_frame_hierarchy
        (build_opacity_hierarchy s'.timeline)) := (congrArg Prod.fst hpair).symm
    have hmeta : meta = s'.meta := (congrArg Prod.snd hpair).symm
    have hinv := parentInv_runLoop model hwf fuel (initState model) s'
      (parentInv_init model hwf) hrun
    rw [hmeta] at hmi hmj
    have hcm : mi.comp < s'.parentMaps.length := hinv.metaComp i mi hmi
    obtain ⟨pm, hpm⟩ : ∃ pm, s'.parentMaps[mi.comp]? = some pm :=
      ⟨_, List.getElem?_eq_getElem hcm⟩
    have hfind : pmFind pm k = some j :=
      hinv.regComplete j mj k hmj hidx pm (by rw [hcomp]; exact hpm)
    have hres := hinv.resolveSome i mi k hmi hpi pm hpm j hfind
    have hmaps : tl.store.map StagedLayer.parent =
        s'.timeline.store.map StagedLayer.parent := by
      rw [htl]
      rw [map_proj_build_mask StagedLayer.parent (fun l mh => rfl),
        map_proj_build_frame StagedLayer.parent (fun l fh => rfl),
        map_proj_build_opacity StagedLayer.parent (fun l th => rfl)]
    rw [← List.getElem?_map StagedLayer.parent tl.store i, hmaps]
    exact hres

def cexModelC2 : Model :=
  { frame_rate := 30,
    layers := [{ content := .preCompositionRef ⟨"a"⟩ }],
    assets := [.precomposition "a" [{ content := .empty }]] }

/-- Counterexample to claim C2 as stated: on a document with one
precomposition layer whose asset holds one layer, the spawned child (staged
at position 1, composition 1) carries `parent = some 0`, the staged id of
the precomposition layer, which lives in composition 0 — a parent link that
crosses compositions. -/
theorem C2_counterexample :
    ((Timeline.new cexModelC2 2).map fun p =>
      (p.1.store.map StagedLayer.parent, p.2.map LayerMeta.comp)) =
      some ([none, some 0], [0, 1]) ∧ (1 : ℕ) ≠ 0 := by
  constructor
  · decide
  · decide

def witModelC2 : Model :=
  { frame_rate := 30,
    layers := [{ content := .empty, parent_index := some 5 },
               { content := .empty, index := some 5 }],
    assets := [] }

/-- Witness for the amended claim C2 at the forward-reference document: layer
0 declares `parent_index = 5`, its later sibling layer 1 declares
`index = 5`; after the build, staged layer 0's parent is staged layer 1. -/
theorem C2_parent_resolution_amended_witness :
    ModelWF witModelC2 ∧
    Timeline.new witModelC2 2 = some ((Timeline.new witModelC2 2).getD default) ∧
    (((Timeline.new witModelC2 2).getD default).2)[0]? =
      some ⟨0, none, some 5⟩ ∧
    (((Timeline.new witModelC2 2).getD default).2)[1]? =
      some ⟨0, some 5, none⟩ ∧
    ((((Timeline.new witModelC2 2).getD default).1.store[0]?).map
      StagedLayer.parent = some (some 1)) :=
  ⟨by decide, rfl, by decide, by decide,
   C2_parent_resolution_amended witModelC2 2
     ((Timeline.new witModelC2 2).getD default).1
     ((Timeline.new witModelC2 2).getD default).2
     (by decide) rfl 0 1 5 ⟨0, none, some 5⟩ ⟨0, some 5, none⟩
     (by decide) (by decide) rfl rfl rfl⟩

end LottieSpec
